import Mathlib

/-!
Verification of the field-mapping engine of the solrizer repository
(solrizer/indexers/content_model.py). The Python source is shallowly
embedded: pure functions become Lean functions, Python dict construction
and update become explicit association-list operations, Python exceptions
become an explicit error type threaded through Except, and the unbounded
recursion through the repository graph (assumed acyclic by the source)
is modelled with an explicit fuel parameter. External collaborators that
are not part of the repository source (the langcodes library, the rdflib
namespace manager, the plastron repository client and RDF property model)
are modelled as explicit data or as small executable functions whose doc
comments identify them as models of external behavior.
-/

namespace Solrizer

/-- Scalar Solr field values: the converters of the source produce either
a string or an integer. -/
inductive Scalar where
  | s (v : String)
  | i (n : Int)
deriving DecidableEq, Repr

/-- A Solr field value: a single scalar, a list of scalars (multivalued
field), or a list of nested child documents. A child document is itself
an association list of field names to field values, mirroring the Python
dict-of-str-to-value shape of SolrFields. -/
inductive FValue where
  | one (v : Scalar)
  | many (vs : List Scalar)
  | docs (ds : List (List (String × FValue)))

/-- The SolrFields document type: an insertion-ordered mapping from field
name to value, modelled as an association list exactly as a Python dict
preserves insertion order. -/
abbrev SolrFields := List (String × FValue)

/-- Look up the value stored under key k, if any. -/
def lookupField (d : SolrFields) (k : String) : Option FValue :=
  match d with
  | [] => none
  | (k2, v) :: rest => if k2 = k then some v else lookupField rest k

/-- Whether the document contains the key k. -/
def containsKey (d : SolrFields) (k : String) : Bool :=
  match d with
  | [] => false
  | (k2, _) :: rest => if k2 = k then true else containsKey rest k

/-- One step of Python dict update: if the key is already present its
value is replaced in place (the key keeps its position), otherwise the
pair is appended at the end. -/
def updatePair (d : SolrFields) (kv : String × FValue) : SolrFields :=
  if containsKey d kv.1 then
    d.map (fun p => if p.1 = kv.1 then (p.1, kv.2) else p)
  else
    d ++ [kv]

/-- Python dict.update: merge the pairs of the second dict into the first,
left to right, with replace-in-place semantics per key. -/
def dictUpdate (d new : SolrFields) : SolrFields :=
  new.foldl updatePair d

/-- An RDF literal as consumed by the field builder: a lexical value and
an optional language tag. -/
structure Lit where
  value : String
  language : Option String
deriving DecidableEq, Repr

/-- The object class associated with an object property: its Python
simple class name and whether it is a subclass of VocabularyTerm. -/
structure ObjectClass where
  name : String
  isVocabularyTerm : Bool
deriving DecidableEq, Repr

mutual

/-- An RDF resource as consumed by get_model_fields: its URI, the model
name when the resource is an instance of ContentModeledResource (None
otherwise), and its ordered list of RDF properties. -/
inductive Resource where
  | mk (uri : String) (model_name : Option String) (props : List RProperty)

/-- An RDF property: either a data property (attribute name, optional
datatype IRI, repeatable flag, literal values) or an object property
(attribute name, repeatable flag, URI values, optional object class,
embedded flag, the already-resolved embedded objects, and the single
resolved object used for vocabulary terms). -/
inductive RProperty where
  | data (attr_name : String) (datatype : Option String) (repeatable : Bool)
      (values : List Lit)
  | object (attr_name : String) (repeatable : Bool) (values : List String)
      (object_class : Option ObjectClass) (embedded : Bool)
      (objects : List Resource) (objectOne : Option Resource)

end

/-- URI of a resource. -/
def Resource.uri : Resource → String
  | .mk u _ _ => u

/-- Model name of a resource (present when the resource is an instance of
ContentModeledResource). -/
def Resource.model_name : Resource → Option String
  | .mk _ m _ => m

/-- Ordered RDF properties of a resource. -/
def Resource.props : Resource → List RProperty
  | .mk _ _ ps => ps

/-- Attribute name of a property. -/
def RProperty.attr_name : RProperty → String
  | .data a _ _ _ => a
  | .object a _ _ _ _ _ _ => a

/-- Repeatable flag of a property. -/
def RProperty.repeatable : RProperty → Bool
  | .data _ _ r _ => r
  | .object _ r _ _ _ _ _ => r

/-- Number of values of a property; models Python len(prop). -/
def RProperty.numValues : RProperty → Nat
  | .data _ _ _ vs => vs.length
  | .object _ _ vs _ _ _ _ => vs.length

/-- Literal values of a data property (empty for object properties). -/
def RProperty.litValues : RProperty → List Lit
  | .data _ _ _ vs => vs
  | .object _ _ _ _ _ _ _ => []

/-- URI values of an object property (empty for data properties). -/
def RProperty.uriValues : RProperty → List String
  | .data _ _ _ _ => []
  | .object _ _ vs _ _ _ _ => vs

/-- Datatype of a data property (None for object properties, as in the
plastron property model). -/
def RProperty.datatype : RProperty → Option String
  | .data _ dt _ _ => dt
  | .object _ _ _ _ _ _ _ => none

/-- A value passed to converters and filters: either a literal (data
properties) or a URI reference (object properties). -/
inductive RValue where
  | lit (l : Lit)
  | uri (u : String)
deriving DecidableEq, Repr

/-- All values of a property, as converter inputs. -/
def RProperty.values : RProperty → List RValue
  | .data _ _ _ vs => vs.map RValue.lit
  | .object _ _ vs _ _ _ _ => vs.map RValue.uri

/-- Python str() of a property value: the lexical form of a literal, or
the URI string of a URI reference. -/
def RValue.toStr : RValue → String
  | .lit l => l.value
  | .uri u => u

/-- The result of reading a resource from the repository: its description
URL (possibly absent) and its own URL, plus the description of the
resource under a given object class (models the describe method of the
plastron repository resource). -/
structure RepoResource where
  description_url : Option String
  url : String
  describeAs : ObjectClass → Resource

/-- The repository collaborator: an endpoint-containment test for URIs
and a read operation. Reads are modelled as total; repository resolution
errors are outside the claims considered here and propagate in the source
exactly as any exception would. -/
structure Repository where
  inEndpoint : String → Bool
  read : String → RepoResource

/-- The indexer context passed to content_model_fields: the target
resource and the repository collaborator. -/
structure IndexerContext where
  obj : Resource
  repo : Repository

/-- Errors raised by the field-mapping engine. indexerError models the
IndexerError class, valueError models Python ValueError, indexError
models Python IndexError (list subscript out of range), languageTagError
models an uncaught langcodes LanguageTagError, and recursionLimit is the
fuel-exhaustion marker of this embedding (the source assumes an acyclic
resource graph and has no such case). -/
inductive IndexErr where
  | indexerError (msg : String)
  | valueError (msg : String)
  | indexError
  | languageTagError (msg : String)
  | recursionLimit
deriving DecidableEq, Repr

/-- Suffix of a Solr field name: base tag, plurality flag, language
fragment (source class Suffix). -/
structure Suffix where
  base : String
  plural : Bool
  lang : String
deriving DecidableEq, Repr

/-- Stringification of a suffix: base, plus s if plural, plus lang. -/
def Suffix.render (x : Suffix) : String :=
  x.base ++ (if x.plural then "s" else "") ++ x.lang

/-- The suffix argument of get_field: either a plain string (plurality is
then taken from the property) or a full Suffix value. -/
inductive SuffixArg where
  | ofStr (s : String)
  | ofSuffix (x : Suffix)
deriving DecidableEq, Repr

/-- Boolean test that p is a prefix of s, on the underlying character
lists. -/
def strStarts (p s : String) : Bool :=
  p.data.isPrefixOf s.data

/-- Python  a or b  for an optional string a and a string b: a when a is
present and non-empty (truthy), otherwise b. Models the described-by
fallback expression of the source. -/
def pyOr (a : Option String) (b : String) : String :=
  match a with
  | some s => if s = "" then b else s
  | none => b

/-- Fragment part of a URI: everything after the first hash character,
empty when there is no hash. Models the URLObject fragment accessor used
by the source, whose truthiness gates the described-by lookup. -/
def urlFragment (u : String) : String :=
  match u.data.dropWhile (fun c => c ≠ '#') with
  | [] => ""
  | _ :: rest => String.mk rest

/-- Distinct elements of a list in order of first occurrence. Models the
languages accessor of the plastron data property (an external
collaborator, modelled from the spec: for each distinct language present
among the property's values). -/
def dedupFirst (l : List (Option String)) : List (Option String) :=
  l.foldl (fun acc x => if acc.contains x then acc else acc ++ [x]) []

/-- ASCII letter test. -/
def isAsciiAlpha (c : Char) : Bool :=
  (decide (c ≥ 'a') && decide (c ≤ 'z')) || (decide (c ≥ 'A') && decide (c ≤ 'Z'))

/-- ASCII digit test. -/
def isAsciiDigit (c : Char) : Bool :=
  decide (c ≥ '0') && decide (c ≤ '9')

/-- Split a character list on a separator character. -/
def splitChar (sep : Char) (l : List Char) : List (List Char) :=
  l.foldr (fun c acc =>
    match acc with
    | cur :: rest => if c = sep then [] :: cur :: rest else (c :: cur) :: rest
    | [] => [[c]]) [[]]

/-- Join character lists with dash separators. -/
def joinDash : List (List Char) → List Char
  | [] => []
  | [x] => x
  | x :: y :: rest => x ++ '-' :: joinDash (y :: rest)

/-- Three-letter to two-letter ISO 639 code folding (a fragment of the
registry used by langcodes; modelled from the spec, which requires
3-letter codes to fold to their 2-letter equivalents). Codes outside the
table are left unchanged. -/
def iso3to2 (s : String) : String :=
  if s = "eng" then "en"
  else if s = "deu" then "de"
  else if s = "ger" then "de"
  else if s = "fra" then "fr"
  else if s = "fre" then "fr"
  else if s = "jpn" then "ja"
  else if s = "spa" then "es"
  else s

/-- Normalize one non-initial BCP-47 subtag: scripts (4 letters) are
title-cased, regions (2 letters or 3 digits) upper-cased, variants (5 to
8 alphanumeric characters) lower-cased; anything else is ill-formed.
Part of the model of langcodes.standardize_tag. -/
def normSubtag (st : List Char) : Except String (List Char) :=
  if st.length = 4 && st.all isAsciiAlpha then
    .ok (match st with
         | c :: rest => c.toUpper :: rest.map Char.toLower
         | [] => [])
  else if st.length = 2 && st.all isAsciiAlpha then
    .ok (st.map Char.toUpper)
  else if st.length = 3 && st.all isAsciiDigit then
    .ok st
  else if (decide (st.length ≥ 5) && decide (st.length ≤ 8))
          && st.all (fun c => isAsciiAlpha c || isAsciiDigit c) then
    .ok (st.map Char.toLower)
  else
    .error "ill-formed subtag"

/-- Modelled from the spec: langcodes.standardize_tag, the external tag
normalizer used by the source. It parses a hyphen- or underscore-
separated BCP-47 tag, validates subtag shapes, folds 3-letter primary
language codes to their 2-letter equivalents, and case-normalizes each
subtag; ill-formed tags produce an error (a LanguageTagError in Python). -/
def standardize_tag (tag : String) : Except String String :=
  let norm := tag.data.map (fun c => if c = '_' then '-' else c)
  match splitChar '-' norm with
  | [] => .error ("Invalid language tag: " ++ tag)
  | lang :: rest =>
    if (decide (lang.length ≥ 2) && decide (lang.length ≤ 3)) && lang.all isAsciiAlpha then
      match rest.mapM normSubtag with
      | .ok subtags =>
        .ok (String.mk (joinDash
          (String.data (iso3to2 (String.mk (lang.map Char.toLower))) :: subtags)))
      | .error e => .error e
    else
      .error ("Invalid language tag: " ++ tag)

/-- Python str.lower restricted to ASCII, on the underlying characters. -/
def strLower (s : String) : String := String.mk (s.data.map Char.toLower)

/-- Python str.replace specialized to the single-character use of the
source: every dash becomes an underscore. -/
def dashToUnderscore (s : String) : String :=
  String.mk (s.data.map (fun c => if c = '-' then '_' else c))

/-- Source function language_suffix: the empty string for an absent
language; otherwise an underscore followed by the standardized tag,
lower-cased and with dashes turned into underscores; an unparseable tag
raises IndexerError with a message naming the offending raw tag. -/
def language_suffix (language : Option String) : Except IndexErr String :=
  match language with
  | some l =>
    match standardize_tag l with
    | .ok t => .ok ("_" ++ dashToUnderscore (strLower t))
    | .error _ =>
      .error (.indexerError ("Unable to determine language suffix from \"" ++ l ++ "\""))
  | none => .ok ""

/-- Rendering function for the display template used by get_data_fields:
an at-sign tag marker in brackets followed by the value. -/
def displayTemplate (value tag : String) : String := "[@" ++ tag ++ "]" ++ value

/-- Rendering function for the default template of embed_language_tag:
the value, a pipe, then the tag. -/
def defaultTemplate (value tag : String) : String := value ++ "|" ++ tag

/-- Source function embed_language_tag: if the literal carries a truthy
language tag, render the template with the value and the standardized
tag; otherwise the plain string form of the value. The Python format
template is modelled as a rendering function; a LanguageTagError raised
by standardize_tag propagates uncaught here, exactly as in the source. -/
def embed_language_tag (value : Lit) (tmpl : String → String → String) : Except IndexErr String :=
  match value.language with
  | some l =>
    if l = "" then .ok value.value
    else
      match standardize_tag l with
      | .ok t => .ok (tmpl value.value t)
      | .error e => .error (.languageTagError e)
  | none => .ok value.value

/-- Modelled from the spec: Python int() base-10 parsing of a literal
string (an optional sign followed by decimal digits); non-numeric text
raises ValueError. -/
def pyInt (s : String) : Except IndexErr Int :=
  let digitsOf (cs : List Char) : Option Nat :=
    if cs = [] then none
    else cs.foldl (fun acc c =>
      match acc with
      | some n => if isAsciiDigit c then some (n * 10 + (c.toNat - 48)) else none
      | none => none) (some 0)
  match s.data with
  | '-' :: rest =>
    match digitsOf rest with
    | some n => .ok (-(n : Int))
    | none => .error (.valueError ("invalid literal for int: " ++ s))
  | '+' :: rest =>
    match digitsOf rest with
    | some n => .ok (n : Int)
    | none => .error (.valueError ("invalid literal for int: " ++ s))
  | cs =>
    match digitsOf cs with
    | some n => .ok (n : Int)
    | none => .error (.valueError ("invalid literal for int: " ++ s))

/-- Default converter of get_field: Python str() of the value. -/
def strConv (v : RValue) : Except IndexErr Scalar := .ok (.s v.toStr)

/-- Integer converter installed for the xsd integer datatypes. -/
def intConv (v : RValue) : Except IndexErr Scalar :=
  (pyInt v.toStr).map Scalar.i

/-- Value filter that accepts every value (the get_field default). -/
def trueFilter (_ : RValue) : Bool := true

/-- Zero-padded two-digit rendering. -/
def pad2 (n : Nat) : String := if n < 10 then "0" ++ toString n else toString n

/-- Modelled from the spec: solr_datetime from the indexer utilities
module, which is not part of the analyzed source tree. Datetime values
must be full ISO-8601 date or date-time strings; a date-only or
offset-free value is interpreted at a fixed local UTC offset of minus
five hours and converted to the canonical UTC form with a trailing Z;
explicit offsets are honored; year-only and year-month-only dates and
unparseable strings raise ValueError. Day arithmetic on midnight
rollover is simplified to adjusting the day number. -/
def solr_datetime (s : String) : Except IndexErr String :=
  let d2 (a b : Char) : Option Nat :=
    if isAsciiDigit a && isAsciiDigit b then some ((a.toNat - 48) * 10 + (b.toNat - 48)) else none
  let fail : Except IndexErr String := .error (.valueError ("Invalid isoformat string: " ++ s))
  match s.data with
  | y1 :: y2 :: y3 :: y4 :: '-' :: m1 :: m2 :: '-' :: dd1 :: dd2 :: rest =>
    if [y1, y2, y3, y4].all isAsciiDigit then
      match d2 m1 m2, d2 dd1 dd2 with
      | some mo, some da =>
        let year := String.mk [y1, y2, y3, y4]
        let render (da2 h mi se : Nat) : String :=
          year ++ "-" ++ pad2 mo ++ "-" ++ pad2 da2 ++ "T" ++
            pad2 h ++ ":" ++ pad2 mi ++ ":" ++ pad2 se ++ "Z"
        let finish (h mi se : Nat) (offMin : Int) : Except IndexErr String :=
          let total : Int := ((h * 60 + mi : Nat) : Int) - offMin
          if total < 0 then
            .ok (render (da - 1) ((total + 1440).toNat / 60) ((total + 1440).toNat % 60) se)
          else if total ≥ 1440 then
            .ok (render (da + 1) ((total.toNat - 1440) / 60) ((total.toNat - 1440) % 60) se)
          else
            .ok (render da (total.toNat / 60) (total.toNat % 60) se)
        let parseOff (l : List Char) : Option Int :=
          match l with
          | [] => some ((-300 : Int))
          | ['Z'] => some 0
          | ['+', h1, h2, ':', n1, n2] =>
            match d2 h1 h2, d2 n1 n2 with
            | some oh, some om => some (((oh * 60 + om : Nat) : Int))
            | _, _ => none
          | ['-', h1, h2, ':', n1, n2] =>
            match d2 h1 h2, d2 n1 n2 with
            | some oh, some om => some (-(((oh * 60 + om : Nat) : Int)))
            | _, _ => none
          | _ => none
        match rest with
        | [] => finish 0 0 0 ((-300 : Int))
        | 'T' :: h1 :: h2 :: t1 =>
          match d2 h1 h2 with
          | some h =>
            match t1 with
            | ':' :: n1 :: n2 :: t2 =>
              match d2 n1 n2 with
              | some mi =>
                match t2 with
                | ':' :: s1 :: s2 :: t3 =>
                  match d2 s1 s2, parseOff t3 with
                  | some se, some off => finish h mi se off
                  | _, _ => fail
                | t3 =>
                  match parseOff t3 with
                  | some off => finish h mi 0 off
                  | none => fail
              | none => fail
            | t2 =>
              match parseOff t2 with
              | some off => finish h 0 0 off
              | none => fail
          | none => fail
        | _ => fail
      | _, _ => fail
    else fail
  | _ => fail

/-- Converter installed for the xsd dateTime datatype. -/
def dtConv (v : RValue) : Except IndexErr Scalar :=
  (solr_datetime v.toStr).map Scalar.s

/-- Modelled from the spec: the namespace-to-prefix table of the rdflib
namespace manager configured by plastron, used for CURIE shortening (an
injected read-only configuration per the spec's design notes). -/
def nsTable : List (String × String) :=
  [("rdf", "http://www.w3.org/1999/02/22-rdf-syntax-ns#"),
   ("rdfs", "http://www.w3.org/2000/01/rdf-schema#"),
   ("dcterms", "http://purl.org/dc/terms/"),
   ("umdtype", "http://vocab.lib.umd.edu/datatype#"),
   ("fedora", "http://fedora.info/definitions/v4/repository#")]

/-- Modelled from the spec: the curie method of the namespace manager
with generation disabled; succeeds with a prefix-colon-local form when
the URI strictly extends a registered namespace, otherwise fails (a
KeyError or ValueError in Python). -/
def nmCurie (uri : String) : Except Unit String :=
  match nsTable.find? (fun p => strStarts p.2 uri && uri != p.2) with
  | some (pfx, ns) => .ok (pfx ++ ":" ++ String.mk (uri.data.drop ns.length))
  | none => .error ()

/-- Source function shorten_uri: None maps to None; otherwise the CURIE
when the namespace lookup succeeds, and the unmodified URI string on any
lookup failure. -/
def shorten_uri (uri : Option String) : Option String :=
  match uri with
  | none => none
  | some u =>
    match nmCurie u with
    | .ok c => some c
    | .error _ => some u

/-- Converter used for the curie field: shorten_uri applied to the value
string. The value is always present at this call site, so the default
for an absent result is never reached. -/
def curieConv (v : RValue) : Except IndexErr Scalar :=
  .ok (.s ((shorten_uri (some v.toStr)).getD v.toStr))

/-- Arguments selected from an override table: the suffix string and the
converter (the source omits the converter entry for identifier
datatypes and for attribute-name overrides, leaving the str default). -/
structure FieldArgs where
  suffix : String
  converter : RValue → Except IndexErr Scalar

/-- Source table FIELD_ARGUMENTS_BY_DATATYPE, keyed by datatype IRI,
together with the Python membership test on an optional datatype (None
is never a key). -/
def fieldArgsByDatatype (dt : Option String) : Option FieldArgs :=
  match dt with
  | none => none
  | some d =>
    if d = "http://www.w3.org/2001/XMLSchema#int" then some ⟨"__int", intConv⟩
    else if d = "http://www.w3.org/2001/XMLSchema#integer" then some ⟨"__int", intConv⟩
    else if d = "http://www.w3.org/2001/XMLSchema#long" then some ⟨"__int", intConv⟩
    else if d = "http://www.w3.org/2001/XMLSchema#dateTime" then some ⟨"__dt", dtConv⟩
    else if d = "http://vocab.lib.umd.edu/datatype#accessionNumber" then some ⟨"__id", strConv⟩
    else if d = "http://vocab.lib.umd.edu/datatype#handle" then some ⟨"__id", strConv⟩
    else none

/-- Source table FIELD_ARGUMENTS_BY_ATTR_NAME, keyed by attribute name. -/
def fieldArgsByAttrName (a : String) : Option FieldArgs :=
  if a = "created_by" then some ⟨"__str", strConv⟩
  else if a = "date" then some ⟨"__edtf", strConv⟩
  else if a = "filename" then some ⟨"__str", strConv⟩
  else if a = "identifier" then some ⟨"__id", strConv⟩
  else if a = "last_modified_by" then some ⟨"__str", strConv⟩
  else if a = "mime_type" then some ⟨"__str", strConv⟩
  else none

/-- Source table SKIP_FIELDS_BY_MODEL with its dict.get default of the
empty set: the first pointer property is skipped for the four paged
models. -/
def skipFieldsByModel (model_name : Option String) : List String :=
  match model_name with
  | some "Issue" => ["first"]
  | some "Item" => ["first"]
  | some "Letter" => ["first"]
  | some "Poster" => ["first"]
  | _ => []

/-- Object class of a property (None for data properties). -/
def RProperty.object_class : RProperty → Option ObjectClass
  | .data _ _ _ _ => none
  | .object _ _ _ oc _ _ _ => oc

/-- Embedded flag of an object property. -/
def RProperty.embedded : RProperty → Bool
  | .data _ _ _ _ => false
  | .object _ _ _ _ e _ _ => e

/-- Already-resolved embedded objects of an object property. -/
def RProperty.objects : RProperty → List Resource
  | .data _ _ _ _ => []
  | .object _ _ _ _ _ os _ => os

/-- Single resolved object of an object property (used for vocabulary
terms). -/
def RProperty.objectOne : RProperty → Option Resource
  | .data _ _ _ _ => none
  | .object _ _ _ _ _ _ o => o

/-- Resolution of the suffix argument at the top of get_field: a
plain-string suffix takes its plurality from the property, while a full
Suffix value is used as given. -/
def resolveSuffix (p : RProperty) : SuffixArg → Suffix
  | .ofStr s => ⟨s, p.repeatable, ""⟩
  | .ofSuffix x => x

/-- The field name built by get_field from its prefix, the attribute
name, and the rendered suffix. -/
def fieldName (p : RProperty) (pfx : String) (suffix : SuffixArg) : String :=
  pfx ++ p.attr_name ++ (resolveSuffix p suffix).render

/-- Source function get_field: select the values passing the filter,
convert each in order (a conversion failure propagates), and
build the single field under the assembled field name. Repeatable
properties yield the whole converted list; a non-repeatable property
yields the first converted element, raising IndexError when the
filtered list is empty. -/
def get_field (p : RProperty) (pfx : String) (suffix : SuffixArg)
    (converter : RValue → Except IndexErr Scalar) (value_filter : RValue → Bool) :
    Except IndexErr SolrFields :=
  match (p.values.filter value_filter).mapM converter with
  | .error e => .error e
  | .ok vs =>
    if p.repeatable then .ok [(fieldName p pfx suffix, .many vs)]
    else
      match vs with
      | v :: _ => .ok [(fieldName p pfx suffix, .one v)]
      | [] => .error .indexError

/-- The per-language value filter of the free-text branch of
get_data_fields. -/
def langFilter (language : Option String) (v : RValue) : Bool :=
  match v with
  | .lit l => l.language == language
  | .uri _ => false

/-- One iteration of the language loop in the free-text branch of
get_data_fields: compute the language suffix (an invalid tag aborts the
branch), build the txt field for exactly that language's values, and
merge it into the accumulated document. -/
def txtStep (p : RProperty) (pfx : String) (acc : SolrFields) (language : Option String) :
    Except IndexErr SolrFields :=
  match language_suffix language with
  | .error e => .error e
  | .ok suf =>
    match get_field p pfx (.ofSuffix ⟨"__txt", p.repeatable, suf⟩) strConv
        (langFilter language) with
    | .error e => .error e
    | .ok f => .ok (dictUpdate acc f)

/-- Source function get_data_fields: the datatype override table is
consulted first, then the attribute-name override table; otherwise the
property is treated as free text, building one language-suffixed txt
field per distinct language among the values (each holding only that
language's values, via txtStep) followed by a display field rendering
every value with its embedded language tag. -/
def get_data_fields (p : RProperty) (pfx : String) : Except IndexErr SolrFields :=
  match fieldArgsByDatatype p.datatype with
  | some args => get_field p pfx (.ofStr args.suffix) args.converter trueFilter
  | none =>
    match fieldArgsByAttrName p.attr_name with
    | some args => get_field p pfx (.ofStr args.suffix) args.converter trueFilter
    | none =>
      match (dedupFirst (p.litValues.map (fun l => l.language))).foldlM
          (txtStep p pfx) ([] : SolrFields) with
      | .error e => .error e
      | .ok fields =>
        match p.litValues.mapM (fun v => embed_language_tag v displayTemplate) with
        | .error e => .error e
        | .ok disp =>
          .ok (dictUpdate fields
            [(pfx ++ p.attr_name ++ "__display", .many (disp.map Scalar.s))])

/-- An element of the child-document source list of the linked branch:
either a resource fetched from the repository and described as the
declared object class, or a raw URI passed through unresolved. -/
inductive LinkedItem where
  | res (r : Resource)
  | raw (u : String)

/-- Source function get_linked_objects, with the object class passed
explicitly (the source reads it from the property; every call site has
already established that it is present). The second component records,
in order, the URIs read from the repository while resolving the values:
a URI inside the endpoint is fetched and described as the object class;
one outside is passed through raw, unless the class is a vocabulary-term
kind, in which case it is dropped. -/
def get_linked_objects (cls : ObjectClass) (values : List String) (repo : Repository) :
    List LinkedItem × List String :=
  match values with
  | [] => ([], [])
  | u :: rest =>
    if repo.inEndpoint u then
      (.res ((repo.read u).describeAs cls) :: (get_linked_objects cls rest repo).1,
       u :: (get_linked_objects cls rest repo).2)
    else if cls.isVocabularyTerm then get_linked_objects cls rest repo
    else (.raw u :: (get_linked_objects cls rest repo).1,
      (get_linked_objects cls rest repo).2)

/-- Source function get_child_documents, parameterized by the collector
(get_model_fields at the enclosing fuel level with the repository
already applied). Each resource child document is the Python dict
holding an id key with the resource URI, merged with the collector
output; a raw URI element is passed through unresolved as a document
holding only the id (modelled from the spec: the source hands the raw
URI object to the same comprehension, and its handling lives in external
collaborator code outside the analyzed tree). -/
def get_child_documents (gmf : Resource → String → Except IndexErr SolrFields)
    (pfx : String) (objects : List LinkedItem) : Except IndexErr (List SolrFields) :=
  objects.mapM (fun it =>
    match it with
    | .res o =>
      match gmf o pfx with
      | .error e => .error e
      | .ok f => .ok (dictUpdate [("id", .one (.s o.uri))] f)
    | .raw u => .ok [("id", .one (.s u))])

/-- The document seeded by get_object_fields: the empty dict updated
with the uri field dict, then with the curie field dict, exactly as the
source builds its local fields variable before dispatching on the object
class. -/
def uriCurieFields (f1 f2 : SolrFields) : SolrFields := dictUpdate (dictUpdate [] f1) f2

/-- Source function get_object_fields, parameterized by the collector.
The second result component records the repository reads performed to
resolve this property's own URI values: the linked branch reads every
in-endpoint value through get_linked_objects, while the vocabulary and
embedded branches resolve no value through the repository. -/
def get_object_fields (gmf : Resource → String → Except IndexErr SolrFields)
    (p : RProperty) (repo : Repository) (pfx : String) :
    Except IndexErr (SolrFields × List String) :=
  match get_field p pfx (.ofStr "__uri") strConv trueFilter with
  | .error e => .error e
  | .ok f1 =>
    match get_field p pfx (.ofStr "__curie") curieConv trueFilter with
    | .error e => .error e
    | .ok f2 =>
      match p.object_class with
      | none => .ok (uriCurieFields f1 f2, [])
      | some cls =>
        if cls.isVocabularyTerm then
          match p.objectOne with
          | some o =>
            match gmf o (pfx ++ p.attr_name ++ "__") with
            | .error e => .error e
            | .ok sub => .ok (dictUpdate (uriCurieFields f1 f2) sub, [])
          | none => .ok (uriCurieFields f1 f2, [])
        else if p.embedded then
          match get_child_documents gmf (strLower cls.name ++ "__")
              (p.objects.map LinkedItem.res) with
          | .error e => .error e
          | .ok ds =>
            .ok (updatePair (uriCurieFields f1 f2) (pfx ++ p.attr_name, .docs ds), [])
        else
          match get_child_documents gmf (strLower cls.name ++ "__")
              (get_linked_objects cls p.uriValues repo).1 with
          | .error e => .error e
          | .ok ds =>
            .ok (updatePair (uriCurieFields f1 f2) (pfx ++ p.attr_name, .docs ds),
              (get_linked_objects cls p.uriValues repo).2)

/-- The property loop of get_model_fields: skip properties with no
values and properties in the per-model skip set, dispatch data
properties to get_data_fields and object properties to
get_object_fields, and merge each result into the accumulated document
in order. -/
def processProps (gmf : Resource → String → Except IndexErr SolrFields)
    (model_name : Option String) (repo : Repository) (pfx : String) :
    List RProperty → SolrFields → Except IndexErr SolrFields
  | [], fields => .ok fields
  | p :: rest, fields =>
    if p.numValues = 0 then processProps gmf model_name repo pfx rest fields
    else if (skipFieldsByModel model_name).contains p.attr_name then
      processProps gmf model_name repo pfx rest fields
    else
      match p with
      | .data _ _ _ _ =>
        match get_data_fields p pfx with
        | .error e => .error e
        | .ok f => processProps gmf model_name repo pfx rest (dictUpdate fields f)
      | .object _ _ _ _ _ _ _ =>
        match get_object_fields gmf p repo pfx with
        | .error e => .error e
        | .ok fo => processProps gmf model_name repo pfx rest (dictUpdate fields fo.1)

/-- Source function get_model_fields, with fuel bounding the recursion
depth through linked, embedded, and vocabulary resources (the source
assumes an acyclic resource graph; fuel exhaustion yields the
recursionLimit marker, on which no claim relies). Seeds the document
with the content model name for content-modeled resources, adds the
described-by URL for non-fragment in-endpoint URIs, then processes the
properties in order. -/
def get_model_fields : Nat → Resource → Repository → String → Except IndexErr SolrFields
  | 0, _, _, _ => .error .recursionLimit
  | Nat.succ fuel, obj, repo, pfx =>
    let fields : SolrFields :=
      match obj.model_name with
      | some m => [("content_model_name__str", .one (.s m))]
      | none => []
    let fields2 :=
      if repo.inEndpoint obj.uri && urlFragment obj.uri == "" then
        let r := repo.read obj.uri
        dictUpdate fields [("described_by__uri", .one (.s (pyOr r.description_url r.url)))]
      else fields
    processProps (fun o pfx2 => get_model_fields fuel o repo pfx2) obj.model_name repo pfx
      obj.props fields2

/-- Source entry point content_model_fields: delegate to
get_model_fields with the object prefix. -/
def content_model_fields (fuel : Nat) (ctx : IndexerContext) : Except IndexErr SolrFields :=
  get_model_fields fuel ctx.obj ctx.repo "object__"

/-- Keys of a document, in order. -/
def keysOf (d : SolrFields) : List String := d.map Prod.fst

/-- Shape of a key of a collected document: one of the two unprefixed
resource-level fields, or a key extending the prefix. -/
def KeyShape (pfx k : String) : Prop :=
  k = "content_model_name__str" ∨ k = "described_by__uri" ∨ ∃ r, k = pfx ++ r

/-- The string form of a child-document source item's identifier: the
resource URI, or the raw URI itself. -/
def LinkedItem.uriStr : LinkedItem → String
  | .res o => o.uri
  | .raw u => u

/-! Helper lemmas about strings, documents, and the monadic plumbing. -/

/-- Appending on the left is cancellative for strings. -/
theorem strAppendCancel {a x y : String} (h : a ++ x = a ++ y) : x = y := by
  apply String.ext
  have h2 := congrArg String.data h
  simp only [String.data_append] at h2
  exact List.append_cancel_left h2

/-- Every string starts with itself extended on the right. -/
theorem strStarts_append (a b : String) : strStarts a (a ++ b) = true := by
  simp only [strStarts, List.isPrefixOf_iff_prefix, String.data_append]
  exact List.prefix_append _ _

/-- A string starting with an extended prefix starts with the base
prefix. -/
theorem strStarts_of_append {a b k : String} (h : strStarts (a ++ b) k = true) :
    strStarts a k = true := by
  simp only [strStarts, List.isPrefixOf_iff_prefix, String.data_append] at *
  exact List.IsPrefix.trans (List.prefix_append a.data b.data) h

theorem keysOf_nil : keysOf [] = [] := rfl

theorem keysOf_cons (kv : String × FValue) (d : SolrFields) :
    keysOf (kv :: d) = kv.1 :: keysOf d := rfl

theorem keysOf_append (d1 d2 : SolrFields) :
    keysOf (d1 ++ d2) = keysOf d1 ++ keysOf d2 := by
  simp [keysOf]

/-- Key membership agrees with the containsKey test. -/
theorem containsKey_iff_mem {d : SolrFields} {k : String} :
    containsKey d k = true ↔ k ∈ keysOf d := by
  induction d with
  | nil => simp [containsKey, keysOf]
  | cons kv rest ih =>
    obtain ⟨k2, v⟩ := kv
    by_cases hk : k2 = k
    · simp [containsKey, keysOf, hk]
    · simp [containsKey, keysOf, hk, ih, Ne.symm hk]

/-- A contained key has a value. -/
theorem lookupField_isSome_of_containsKey {d : SolrFields} {k : String}
    (h : containsKey d k = true) : ∃ v, lookupField d k = some v := by
  induction d with
  | nil => simp [containsKey] at h
  | cons kv rest ih =>
    obtain ⟨k2, v⟩ := kv
    by_cases hk : k2 = k
    · exact ⟨v, by simp [lookupField, hk]⟩
    · simp only [containsKey, if_neg hk] at h
      obtain ⟨w, hw⟩ := ih h
      exact ⟨w, by simp [lookupField, hk, hw]⟩

/-- Lookup skips a block that does not contain the key. -/
theorem lookupField_append_of_not {d1 d2 : SolrFields} {k : String}
    (h : containsKey d1 k = false) :
    lookupField (d1 ++ d2) k = lookupField d2 k := by
  induction d1 with
  | nil => rfl
  | cons kv rest ih =>
    obtain ⟨k2, v⟩ := kv
    by_cases hk : k2 = k
    · simp [containsKey, hk] at h
    · simp only [containsKey, if_neg hk] at h
      simp [lookupField, hk, ih h]

/-- Lookup found on the left is unchanged by extension on the right. -/
theorem lookupField_append_left {d1 d2 : SolrFields} {k : String} {v : FValue}
    (h : lookupField d1 k = some v) :
    lookupField (d1 ++ d2) k = some v := by
  induction d1 with
  | nil => simp [lookupField] at h
  | cons kv rest ih =>
    obtain ⟨k2, w⟩ := kv
    by_cases hk : k2 = k
    · simp only [lookupField, if_pos hk] at h ⊢
      exact h
    · simp only [lookupField, if_neg hk] at h ⊢
      exact ih h

/-- Updating with a fresh key appends the pair. -/
theorem updatePair_fresh {d : SolrFields} {k : String} {v : FValue}
    (h : containsKey d k = false) : updatePair d (k, v) = d ++ [(k, v)] := by
  simp [updatePair, h]

/-- Keys after one update step: unchanged when the key was present,
extended by the new key otherwise. -/
theorem keysOf_updatePair (d : SolrFields) (kv : String × FValue) :
    keysOf (updatePair d kv) =
      if containsKey d kv.1 then keysOf d else keysOf d ++ [kv.1] := by
  unfold updatePair
  split
  · simp only [keysOf, List.map_map]
    apply List.map_congr_left
    intro a _
    simp only [Function.comp]
    split <;> simp_all
  · simp [keysOf]

/-- An update step preserves key presence. -/
theorem containsKey_updatePair {d : SolrFields} {kv : String × FValue} {k : String}
    (h : containsKey d k = true) : containsKey (updatePair d kv) k = true := by
  rw [containsKey_iff_mem] at h ⊢
  rw [keysOf_updatePair]
  split
  · exact h
  · exact List.mem_append.mpr (Or.inl h)

/-- A dict update preserves key presence. -/
theorem containsKey_dictUpdate {d d2 : SolrFields} {k : String}
    (h : containsKey d k = true) : containsKey (dictUpdate d d2) k = true := by
  induction d2 generalizing d with
  | nil => simpa [dictUpdate] using h
  | cons kv rest ih =>
    have step : dictUpdate d (kv :: rest) = dictUpdate (updatePair d kv) rest := rfl
    rw [step]
    exact ih (containsKey_updatePair h)

/-- Keys after a dict update come from one of the two documents. -/
theorem mem_keysOf_dictUpdate {d d2 : SolrFields} {k : String}
    (h : k ∈ keysOf (dictUpdate d d2)) : k ∈ keysOf d ∨ k ∈ keysOf d2 := by
  induction d2 generalizing d with
  | nil => exact Or.inl (by simpa [dictUpdate] using h)
  | cons kv rest ih =>
    have step : dictUpdate d (kv :: rest) = dictUpdate (updatePair d kv) rest := rfl
    rw [step] at h
    rcases ih h with h2 | h2
    · rw [keysOf_updatePair] at h2
      split at h2
      · exact Or.inl h2
      · rcases List.mem_append.mp h2 with h3 | h3
        · exact Or.inl h3
        · right
          rw [keysOf_cons]
          exact List.mem_cons.mpr (Or.inl (List.mem_singleton.mp h3))
    · right
      rw [keysOf_cons]
      exact List.mem_cons.mpr (Or.inr h2)

/-- Replacing a present key in place stores the new value. -/
theorem lookupField_map_replace {d : SolrFields} {k : String} {v : FValue}
    (h : containsKey d k = true) :
    lookupField (d.map (fun p => if p.1 = k then (p.1, v) else p)) k = some v := by
  induction d with
  | nil => simp [containsKey] at h
  | cons kv rest ih =>
    obtain ⟨k2, w⟩ := kv
    rw [List.map_cons]
    by_cases hk : k2 = k
    · rw [show (if (k2, w).1 = k then ((k2, w).1, v) else (k2, w)) = (k2, v) by simp [hk]]
      simp [lookupField, hk]
    · rw [show (if (k2, w).1 = k then ((k2, w).1, v) else (k2, w)) = (k2, w) by simp [hk]]
      simp only [containsKey, if_neg hk] at h
      simp only [lookupField, if_neg hk]
      exact ih h

/-- Replacing some other key leaves a lookup unchanged. -/
theorem lookupField_map_replace_other {d : SolrFields} {k k2 : String} {v : FValue}
    (h : k ≠ k2) :
    lookupField (d.map (fun p => if p.1 = k2 then (p.1, v) else p)) k =
      lookupField d k := by
  induction d with
  | nil => rfl
  | cons kv rest ih =>
    obtain ⟨k3, w⟩ := kv
    rw [List.map_cons]
    by_cases h3 : k3 = k2
    · rw [show (if (k3, w).1 = k2 then ((k3, w).1, v) else (k3, w)) = (k3, v) by simp [h3]]
      have h4 : k3 ≠ k := by
        rw [h3]
        exact Ne.symm h
      simp only [lookupField, if_neg h4]
      exact ih
    · rw [show (if (k3, w).1 = k2 then ((k3, w).1, v) else (k3, w)) = (k3, w) by simp [h3]]
      simp only [lookupField]
      split
      · rfl
      · exact ih

/-- After an update with a pair, the pair's key maps to its value. -/
theorem lookupField_updatePair_self (d : SolrFields) (kv : String × FValue) :
    lookupField (updatePair d kv) kv.1 = some kv.2 := by
  obtain ⟨k, v⟩ := kv
  by_cases h : containsKey d k
  · unfold updatePair
    rw [if_pos h]
    exact lookupField_map_replace h
  · rw [updatePair_fresh (by simpa using h)]
    rw [lookupField_append_of_not (by simpa using h)]
    simp [lookupField]

/-- Appending a single pair with a different key leaves a lookup
unchanged. -/
theorem lookupField_append_single_other {d : SolrFields} {kv : String × FValue}
    {k : String} (h : k ≠ kv.1) :
    lookupField (d ++ [kv]) k = lookupField d k := by
  induction d with
  | nil =>
    obtain ⟨k2, w⟩ := kv
    simp only [List.nil_append, lookupField]
    rw [if_neg (by simpa using Ne.symm h)]
  | cons a rest ih =>
    obtain ⟨k3, w⟩ := a
    simp only [List.cons_append, lookupField]
    split
    · rfl
    · exact ih

/-- An update with a pair leaves other keys unchanged. -/
theorem lookupField_updatePair_other {d : SolrFields} {kv : String × FValue} {k : String}
    (h : k ≠ kv.1) :
    lookupField (updatePair d kv) k = lookupField d k := by
  obtain ⟨k2, v⟩ := kv
  by_cases h2 : containsKey d k2
  · unfold updatePair
    rw [if_pos h2]
    exact lookupField_map_replace_other h
  · rw [updatePair_fresh (by simpa using h2)]
    exact lookupField_append_single_other h

/-- Updating with a singleton dict is one update step. -/
theorem dictUpdate_single (d : SolrFields) (kv : String × FValue) :
    dictUpdate d [kv] = updatePair d kv := rfl

/-- Length is preserved by a successful monadic map. -/
theorem mapM_ok_length {α β : Type} {f : α → Except IndexErr β} :
    ∀ {l : List α} {l2 : List β}, l.mapM f = .ok l2 → l2.length = l.length := by
  intro l
  induction l with
  | nil =>
    intro l2 h
    rw [List.mapM_nil] at h
    cases h
    rfl
  | cons a rest ih =>
    intro l2 h
    rw [List.mapM_cons] at h
    cases hf : f a with
    | error e =>
      rw [hf] at h
      simp [bind, Except.bind] at h
    | ok b =>
      rw [hf] at h
      cases hr : rest.mapM f with
      | error e =>
        rw [hr] at h
        simp [bind, Except.bind] at h
      | ok bs =>
        rw [hr] at h
        simp only [bind, Except.bind, pure, Except.pure] at h
        cases h
        simp [ih hr]

/-- Pointwise account of a successful monadic map. -/
theorem mapM_ok_forall₂ {α β : Type} {f : α → Except IndexErr β} :
    ∀ {l : List α} {l2 : List β}, l.mapM f = .ok l2 →
      List.Forall₂ (fun a b => f a = .ok b) l l2 := by
  intro l
  induction l with
  | nil =>
    intro l2 h
    rw [List.mapM_nil] at h
    cases h
    exact List.Forall₂.nil
  | cons a rest ih =>
    intro l2 h
    rw [List.mapM_cons] at h
    cases hf : f a with
    | error e =>
      rw [hf] at h
      simp [bind, Except.bind] at h
    | ok b =>
      rw [hf] at h
      cases hr : rest.mapM f with
      | error e =>
        rw [hr] at h
        simp [bind, Except.bind] at h
      | ok bs =>
        rw [hr] at h
        simp only [bind, Except.bind, pure, Except.pure] at h
        cases h
        exact List.Forall₂.cons hf (ih hr)

/-- A total converter maps successfully to the pointwise image. -/
theorem mapM_total {α β : Type} {f : α → Except IndexErr β} {g : α → β}
    (hf : ∀ v, f v = .ok (g v)) :
    ∀ l : List α, l.mapM f = .ok (l.map g) := by
  intro l
  induction l with
  | nil => rfl
  | cons a rest ih =>
    rw [List.mapM_cons, hf a, ih]
    rfl

/-! Characterization lemmas for get_field. -/

theorem get_field_error {p : RProperty} {pfx : String} {suffix : SuffixArg}
    {conv : RValue → Except IndexErr Scalar} {filt : RValue → Bool} {e : IndexErr}
    (hm : (p.values.filter filt).mapM conv = .error e) :
    get_field p pfx suffix conv filt = .error e := by
  unfold get_field
  rw [hm]

theorem get_field_repeatable {p : RProperty} {pfx : String} {suffix : SuffixArg}
    {conv : RValue → Except IndexErr Scalar} {filt : RValue → Bool} {vs : List Scalar}
    (hr : p.repeatable = true) (hm : (p.values.filter filt).mapM conv = .ok vs) :
    get_field p pfx suffix conv filt = .ok [(fieldName p pfx suffix, .many vs)] := by
  unfold get_field
  rw [hm, hr]
  simp

theorem get_field_single {p : RProperty} {pfx : String} {suffix : SuffixArg}
    {conv : RValue → Except IndexErr Scalar} {filt : RValue → Bool}
    {v : Scalar} {vs : List Scalar}
    (hr : p.repeatable = false) (hm : (p.values.filter filt).mapM conv = .ok (v :: vs)) :
    get_field p pfx suffix conv filt = .ok [(fieldName p pfx suffix, .one v)] := by
  unfold get_field
  rw [hm, hr]
  simp

theorem get_field_empty {p : RProperty} {pfx : String} {suffix : SuffixArg}
    {conv : RValue → Except IndexErr Scalar} {filt : RValue → Bool}
    (hr : p.repeatable = false) (hm : (p.values.filter filt).mapM conv = .ok []) :
    get_field p pfx suffix conv filt = .error .indexError := by
  unfold get_field
  rw [hm, hr]
  simp

/-- A successful get_field result is a singleton under the assembled
field name. -/
theorem get_field_ok_shape {p : RProperty} {pfx : String} {suffix : SuffixArg}
    {conv : RValue → Except IndexErr Scalar} {filt : RValue → Bool} {f : SolrFields}
    (h : get_field p pfx suffix conv filt = .ok f) :
    ∃ val, f = [(fieldName p pfx suffix, val)] := by
  cases hm : (p.values.filter filt).mapM conv with
  | error e =>
    rw [get_field_error hm] at h
    cases h
  | ok vs =>
    cases hr : p.repeatable with
    | true =>
      rw [get_field_repeatable hr hm] at h
      cases h
      exact ⟨_, rfl⟩
    | false =>
      cases vs with
      | nil =>
        rw [get_field_empty hr hm] at h
        cases h
      | cons v rest =>
        rw [get_field_single hr hm] at h
        cases h
        exact ⟨_, rfl⟩

/-- Behavior of get_field under a converter that always succeeds. -/
theorem get_field_total (p : RProperty) (pfx : String) (suffix : SuffixArg)
    (conv : RValue → Except IndexErr Scalar) (g : RValue → Scalar) (filt : RValue → Bool)
    (hconv : ∀ v, conv v = .ok (g v)) :
    get_field p pfx suffix conv filt =
      if p.repeatable then
        .ok [(fieldName p pfx suffix, .many ((p.values.filter filt).map g))]
      else
        match (p.values.filter filt).map g with
        | v :: _ => .ok [(fieldName p pfx suffix, .one v)]
        | [] => .error .indexError := by
  have hm := mapM_total hconv (p.values.filter filt)
  unfold get_field
  rw [hm]

/-- The per-model skip set never contains the attribute name count. -/
theorem skip_not_contains_count (mn : Option String) :
    (skipFieldsByModel mn).contains "count" = false := by
  unfold skipFieldsByModel
  split <;> rfl

/-! Claim theorems. -/

/-- C7: language_suffix maps an absent tag to the empty string; a tag
that the normalizer parses is standardized (3-letter ISO codes folded to
2-letter ones), lower-cased, dash-to-underscore folded, and prefixed
with an underscore (en to _en, eng to _en, en-US to _en_us); an
unparseable tag raises IndexerError with a message carrying the
offending raw tag. -/
theorem C7_language_suffix :
    language_suffix none = .ok "" ∧
    (∀ tag t, standardize_tag tag = .ok t →
      language_suffix (some tag) = .ok ("_" ++ dashToUnderscore (strLower t))) ∧
    (∀ tag e, standardize_tag tag = .error e →
      language_suffix (some tag) =
        .error (.indexerError
          ("Unable to determine language suffix from \"" ++ tag ++ "\""))) ∧
    language_suffix (some "en") = .ok "_en" ∧
    language_suffix (some "eng") = .ok "_en" ∧
    language_suffix (some "en-US") = .ok "_en_us" := by
  refine ⟨rfl, ?_, ?_, rfl, rfl, rfl⟩
  · intro tag t h
    simp [language_suffix, h]
  · intro tag e h
    simp [language_suffix, h]

/-- Witness for C7 at concrete inputs: a parseable tag and an
unparseable one. -/
theorem C7_language_suffix_witness :
    language_suffix (some "fr-CA") = .ok ("_" ++ dashToUnderscore (strLower "fr-CA")) ∧
    language_suffix (some "9") =
      .error (.indexerError
        ("Unable to determine language suffix from \"" ++ "9" ++ "\"")) :=
  ⟨C7_language_suffix.2.1 "fr-CA" "fr-CA" rfl,
   C7_language_suffix.2.2.1 "9" ("Invalid language tag: " ++ "9") rfl⟩

/-- C8: shorten_uri is a total function (it never raises): the CURIE on
lookup success, the unmodified URI string when no registered namespace
matches (the lookup fails), and an absent result exactly for an absent
input. -/
theorem C8_shorten_uri :
    shorten_uri none = none ∧
    (∀ u, ∃ s, shorten_uri (some u) = some s) ∧
    (∀ u c, nmCurie u = .ok c → shorten_uri (some u) = some c) ∧
    (∀ u e, nmCurie u = .error e → shorten_uri (some u) = some u) := by
  refine ⟨rfl, ?_, ?_, ?_⟩
  · intro u
    cases h : nmCurie u with
    | ok c => exact ⟨c, by simp [shorten_uri, h]⟩
    | error e => exact ⟨u, by simp [shorten_uri, h]⟩
  · intro u c h
    simp [shorten_uri, h]
  · intro u e h
    simp [shorten_uri, h]

/-- Witness for C8 at concrete inputs: an unregistered URI falls back to
itself and a registered one shortens. -/
theorem C8_shorten_uri_witness :
    shorten_uri (some "http://example.com/x") = some "http://example.com/x" ∧
    shorten_uri (some "http://purl.org/dc/terms/title") = some "dcterms:title" :=
  ⟨C8_shorten_uri.2.2.2 "http://example.com/x" () rfl,
   C8_shorten_uri.2.2.1 "http://purl.org/dc/terms/title" "dcterms:title" rfl⟩

/-- C1: a resource whose only property is a non-repeatable data property
named count, with an integer datatype and the single value 5, produces
through the content_model_fields entry point (which delegates with the
object prefix) a document containing the field object__count__int with
the integer value 5, for any model name, repository, and fuel. -/
theorem C1_count_int (uri2 : String) (mn : Option String) (repo : Repository)
    (fuel : Nat) (dt : String)
    (hdt : dt = "http://www.w3.org/2001/XMLSchema#int" ∨
           dt = "http://www.w3.org/2001/XMLSchema#integer" ∨
           dt = "http://www.w3.org/2001/XMLSchema#long") :
    ∃ d, content_model_fields (fuel + 1)
        ⟨Resource.mk uri2 mn [.data "count" (some dt) false [⟨"5", none⟩]], repo⟩ =
          .ok d ∧
      lookupField d "object__count__int" = some (.one (.i 5)) := by
  have hdf : get_data_fields (.data "count" (some dt) false [⟨"5", none⟩]) "object__" =
      .ok [("object__count__int", .one (.i 5))] := by
    rcases hdt with h | h | h <;> subst h <;> rfl
  simp only [content_model_fields, get_model_fields, Resource.model_name, Resource.uri,
    Resource.props, processProps, RProperty.attr_name, RProperty.numValues,
    List.length_cons, List.length_nil]
  rw [if_neg (show ¬((0 : Nat) + 1 = 0) by simp)]
  rw [skip_not_contains_count mn]
  simp only [Bool.false_eq_true, if_false, hdf, processProps]
  refine ⟨_, rfl, ?_⟩
  rw [dictUpdate_single]
  exact lookupField_updatePair_self _ _

/-- Witness for C1 at a fully concrete resource and repository. -/
theorem C1_count_int_witness :
    ∃ d, content_model_fields 1
        ⟨Resource.mk "http://example.com/obj1" none
          [.data "count" (some "http://www.w3.org/2001/XMLSchema#int") false [⟨"5", none⟩]],
         ⟨fun _ => false, fun _ => ⟨none, "", fun _ => Resource.mk "" none []⟩⟩⟩ =
          .ok d ∧
      lookupField d "object__count__int" = some (.one (.i 5)) :=
  C1_count_int "http://example.com/obj1" none
    ⟨fun _ => false, fun _ => ⟨none, "", fun _ => Resource.mk "" none []⟩⟩ 0
    "http://www.w3.org/2001/XMLSchema#int" (Or.inl rfl)

/-- The filter that accepts everything filters nothing away. -/
theorem filter_trueFilter (l : List RValue) : l.filter trueFilter = l := by
  have h : trueFilter = fun _ => true := rfl
  rw [h, List.filter_true]

/-- A get_field call with a total converter and the accept-all filter
succeeds whenever the property is repeatable or has a value. -/
theorem get_field_true_ok (p : RProperty) (pfx : String) (suffix : SuffixArg)
    (conv : RValue → Except IndexErr Scalar) (g : RValue → Scalar)
    (hconv : ∀ v, conv v = .ok (g v))
    (hv : p.repeatable = true ∨ p.values ≠ []) :
    ∃ val, get_field p pfx suffix conv trueFilter = .ok [(fieldName p pfx suffix, val)] := by
  have h1 := get_field_total p pfx suffix conv g trueFilter hconv
  rw [filter_trueFilter] at h1
  cases hr : p.repeatable with
  | true =>
    rw [hr, if_pos rfl] at h1
    exact ⟨_, h1⟩
  | false =>
    rw [hr, if_neg (by simp)] at h1
    rcases hv with hv | hv
    · rw [hr] at hv
      cases hv
    · cases hval : p.values with
      | nil => exact absurd hval hv
      | cons v rest =>
        rw [hval] at h1
        exact ⟨_, h1⟩

/-- The uri and curie field names of one property never coincide. -/
theorem uri_ne_curie (p : RProperty) (pfx : String) :
    fieldName p pfx (.ofStr "__uri") ≠ fieldName p pfx (.ofStr "__curie") := by
  intro h
  simp only [fieldName, resolveSuffix] at h
  have h2 := strAppendCancel h
  cases hr : p.repeatable with
  | true =>
    rw [hr] at h2
    exact absurd h2 (by decide)
  | false =>
    rw [hr] at h2
    exact absurd h2 (by decide)

/-- The seeded uri and curie document, explicitly. -/
theorem uriCurieFields_eq (p : RProperty) (pfx : String) (uv cv : FValue) :
    uriCurieFields [(fieldName p pfx (.ofStr "__uri"), uv)]
        [(fieldName p pfx (.ofStr "__curie"), cv)] =
      [(fieldName p pfx (.ofStr "__uri"), uv), (fieldName p pfx (.ofStr "__curie"), cv)] := by
  unfold uriCurieFields
  rw [dictUpdate_single, dictUpdate_single]
  rw [show updatePair [] (fieldName p pfx (.ofStr "__uri"), uv) =
    [(fieldName p pfx (.ofStr "__uri"), uv)] from rfl]
  rw [updatePair_fresh (show containsKey [(fieldName p pfx (.ofStr "__uri"), uv)]
      (fieldName p pfx (.ofStr "__curie")) = false by
    simp only [containsKey]
    rw [if_neg (uri_ne_curie p pfx)])]
  rfl

/-- Whenever get_object_fields returns a document, that document holds
both the uri and the curie field. -/
theorem get_object_fields_ok_contains
    {gmf : Resource → String → Except IndexErr SolrFields} {p : RProperty}
    {repo : Repository} {pfx : String} {fields : SolrFields} {reads : List String}
    (h : get_object_fields gmf p repo pfx = .ok (fields, reads)) :
    containsKey fields (fieldName p pfx (.ofStr "__uri")) = true ∧
    containsKey fields (fieldName p pfx (.ofStr "__curie")) = true := by
  unfold get_object_fields at h
  cases h1 : get_field p pfx (.ofStr "__uri") strConv trueFilter with
  | error e => rw [h1] at h; cases h
  | ok f1 =>
    rw [h1] at h
    cases h2 : get_field p pfx (.ofStr "__curie") curieConv trueFilter with
    | error e => rw [h2] at h; cases h
    | ok f2 =>
      rw [h2] at h
      obtain ⟨uv, hf1⟩ := get_field_ok_shape h1
      obtain ⟨cv, hf2⟩ := get_field_ok_shape h2
      subst hf1
      subst hf2
      simp only [] at h
      rw [uriCurieFields_eq] at h
      have hcbU : containsKey [(fieldName p pfx (.ofStr "__uri"), uv),
          (fieldName p pfx (.ofStr "__curie"), cv)] (fieldName p pfx (.ofStr "__uri")) = true := by
        simp [containsKey]
      have hcbC : containsKey [(fieldName p pfx (.ofStr "__uri"), uv),
          (fieldName p pfx (.ofStr "__curie"), cv)] (fieldName p pfx (.ofStr "__curie")) = true := by
        simp [containsKey, uri_ne_curie p pfx]
      cases hoc : p.object_class with
      | none =>
        rw [hoc] at h
        simp only [] at h
        cases h
        exact ⟨hcbU, hcbC⟩
      | some cls =>
        rw [hoc] at h
        simp only [] at h
        cases hvt : cls.isVocabularyTerm with
        | true =>
          rw [hvt, if_pos rfl] at h
          cases hobj : p.objectOne with
          | some o =>
            rw [hobj] at h
            simp only [] at h
            cases hsub : gmf o (pfx ++ p.attr_name ++ "__") with
            | error e => rw [hsub] at h; cases h
            | ok sub =>
              rw [hsub] at h
              simp only [] at h
              cases h
              exact ⟨containsKey_dictUpdate hcbU, containsKey_dictUpdate hcbC⟩
          | none =>
            rw [hobj] at h
            simp only [] at h
            cases h
            exact ⟨hcbU, hcbC⟩
        | false =>
          rw [hvt, if_neg (by simp)] at h
          cases hemb : p.embedded with
          | true =>
            rw [hemb, if_pos rfl] at h
            cases hcd : get_child_documents gmf (strLower cls.name ++ "__")
                (p.objects.map LinkedItem.res) with
            | error e => rw [hcd] at h; cases h
            | ok ds =>
              rw [hcd] at h
              simp only [] at h
              cases h
              exact ⟨containsKey_updatePair hcbU, containsKey_updatePair hcbC⟩
          | false =>
            rw [hemb, if_neg (by simp)] at h
            cases hcd : get_child_documents gmf (strLower cls.name ++ "__")
                (get_linked_objects cls p.uriValues repo).1 with
            | error e => rw [hcd] at h; cases h
            | ok ds =>
              rw [hcd] at h
              simp only [] at h
              cases h
              exact ⟨containsKey_updatePair hcbU, containsKey_updatePair hcbC⟩

/-- Counterexample for C4: a non-repeatable data property with the
non-empty value list a, under a filter rejecting every value, makes
get_field raise IndexError (Python values[0] on an empty list) instead
of producing the first converted value. -/
theorem C4_counterexample :
    (RProperty.data "title" none false [⟨"a", none⟩]).values.length = 1 ∧
    get_field (.data "title" none false [⟨"a", none⟩]) "" (.ofStr "__str") strConv
      (fun _ => false) = .error .indexError :=
  ⟨rfl, rfl⟩

/-- C4 amended: for every property, filter, and converter, when every
passing value converts successfully, a repeatable property yields the
list of converted passing values (same length as the passing values, in
their original order, converted pointwise), and a non-repeatable
property with at least one passing value yields the first converted
passing value. -/
theorem C4_get_field_amended (p : RProperty) (pfx : String) (suffix : SuffixArg)
    (conv : RValue → Except IndexErr Scalar) (filt : RValue → Bool)
    (vs : List Scalar) (hm : (p.values.filter filt).mapM conv = .ok vs) :
    (p.repeatable = true →
      get_field p pfx suffix conv filt = .ok [(fieldName p pfx suffix, .many vs)] ∧
      vs.length = (p.values.filter filt).length ∧
      List.Forall₂ (fun v w => conv v = .ok w) (p.values.filter filt) vs) ∧
    (p.repeatable = false → ∀ v rest, vs = v :: rest →
      get_field p pfx suffix conv filt = .ok [(fieldName p pfx suffix, .one v)]) := by
  constructor
  · intro hr
    exact ⟨get_field_repeatable hr hm, mapM_ok_length hm, mapM_ok_forall₂ hm⟩
  · intro hr v rest hvs
    subst hvs
    exact get_field_single hr hm

/-- Witness for C4 at concrete inputs: a repeatable property keeping
both values and a non-repeatable property keeping its first value. -/
theorem C4_get_field_amended_witness :
    get_field (.data "tags" none true [⟨"x", none⟩, ⟨"y", none⟩]) "" (.ofStr "__str")
        strConv trueFilter =
      .ok [(fieldName (.data "tags" none true [⟨"x", none⟩, ⟨"y", none⟩]) ""
              (.ofStr "__str"), .many [.s "x", .s "y"])] ∧
    get_field (.data "num" none false [⟨"7", none⟩]) "" (.ofStr "__str")
        strConv trueFilter =
      .ok [(fieldName (.data "num" none false [⟨"7", none⟩]) "" (.ofStr "__str"),
        .one (.s "7"))] :=
  ⟨((C4_get_field_amended (.data "tags" none true [⟨"x", none⟩, ⟨"y", none⟩]) ""
      (.ofStr "__str") strConv trueFilter [.s "x", .s "y"] rfl).1 rfl).1,
   (C4_get_field_amended (.data "num" none false [⟨"7", none⟩]) ""
      (.ofStr "__str") strConv trueFilter [.s "7"] rfl).2 rfl (.s "7") [] rfl⟩

/-- Counterexample for C5: get_object_fields on a non-repeatable object
property with no values raises IndexError while building the uri field
(Python values[0] on an empty list), so neither a uri nor a curie field
is emitted. -/
theorem C5_counterexample :
    get_object_fields (fun _ _ => .ok [])
      (.object "subject" false [] none false [] none)
      ⟨fun _ => false, fun _ => ⟨none, "", fun _ => Resource.mk "" none []⟩⟩ "" =
      .error .indexError := rfl

/-- C5 amended: whenever get_object_fields returns a document it
contains both the uri and the curie field; and for a property that is
repeatable or has at least one value and has no declared object class,
the returned mapping is exactly those two fields and nothing else. -/
theorem C5_object_uri_curie_amended
    (gmf : Resource → String → Except IndexErr SolrFields) (p : RProperty)
    (repo : Repository) (pfx : String) :
    (∀ fields reads, get_object_fields gmf p repo pfx = .ok (fields, reads) →
      (∃ v, lookupField fields (fieldName p pfx (.ofStr "__uri")) = some v) ∧
      (∃ v, lookupField fields (fieldName p pfx (.ofStr "__curie")) = some v)) ∧
    (p.repeatable = true ∨ p.values ≠ [] → p.object_class = none →
      ∃ uv cv, get_object_fields gmf p repo pfx =
        .ok ([(fieldName p pfx (.ofStr "__uri"), uv),
              (fieldName p pfx (.ofStr "__curie"), cv)], [])) := by
  constructor
  · intro fields reads h
    obtain ⟨hU, hC⟩ := get_object_fields_ok_contains h
    exact ⟨lookupField_isSome_of_containsKey hU, lookupField_isSome_of_containsKey hC⟩
  · intro hv hoc
    obtain ⟨uv, h1⟩ := get_field_true_ok p pfx (.ofStr "__uri")
      strConv (fun v => .s v.toStr) (fun _ => rfl) hv
    obtain ⟨cv, h2⟩ := get_field_true_ok p pfx (.ofStr "__curie")
      curieConv (fun v => .s ((shorten_uri (some v.toStr)).getD v.toStr)) (fun _ => rfl) hv
    refine ⟨uv, cv, ?_⟩
    unfold get_object_fields
    rw [h1, h2]
    simp only []
    rw [hoc]
    simp only []
    rw [uriCurieFields_eq]

/-- Witness for C5 at a concrete object property with one value and no
object class. -/
theorem C5_object_uri_curie_amended_witness :
    ∃ uv cv, get_object_fields (fun _ _ => .ok [])
        (.object "creator" false ["http://example.com/a"] none false [] none)
        ⟨fun _ => false, fun _ => ⟨none, "", fun _ => Resource.mk "" none []⟩⟩ "x__" =
      .ok ([(fieldName (.object "creator" false ["http://example.com/a"] none false [] none)
               "x__" (.ofStr "__uri"), uv),
            (fieldName (.object "creator" false ["http://example.com/a"] none false [] none)
               "x__" (.ofStr "__curie"), cv)], []) :=
  (C5_object_uri_curie_amended (fun _ _ => .ok [])
    (.object "creator" false ["http://example.com/a"] none false [] none)
    ⟨fun _ => false, fun _ => ⟨none, "", fun _ => Resource.mk "" none []⟩⟩ "x__").2
    (Or.inr (by simp [RProperty.values])) rfl

/-- Counterexample for C10: an object property with a vocabulary object
class and no resolved object, but also no values and not repeatable,
raises IndexError while building the uri field, so get_object_fields
does not return the uri and curie fields without raising. -/
theorem C10_counterexample :
    get_object_fields (fun _ _ => .ok [])
      (.object "rights" false [] (some ⟨"RightsStatement", true⟩) false [] none)
      ⟨fun _ => false, fun _ => ⟨none, "", fun _ => Resource.mk "" none []⟩⟩ "" =
      .error .indexError := rfl

/-- C10 amended: for an object property that is repeatable or has at
least one value, whose object class is a vocabulary-term kind and whose
single resolved object is absent, get_object_fields returns exactly the
uri and curie fields, without an error and without sibling vocabulary
fields. -/
theorem C10_vocab_absent_amended
    (gmf : Resource → String → Except IndexErr SolrFields) (p : RProperty)
    (repo : Repository) (pfx : String) (cls : ObjectClass)
    (hv : p.repeatable = true ∨ p.values ≠ [])
    (hoc : p.object_class = some cls) (hvt : cls.isVocabularyTerm = true)
    (hobj : p.objectOne = none) :
    ∃ uv cv, get_object_fields gmf p repo pfx =
      .ok ([(fieldName p pfx (.ofStr "__uri"), uv),
            (fieldName p pfx (.ofStr "__curie"), cv)], []) := by
  obtain ⟨uv, h1⟩ := get_field_true_ok p pfx (.ofStr "__uri")
    strConv (fun v => .s v.toStr) (fun _ => rfl) hv
  obtain ⟨cv, h2⟩ := get_field_true_ok p pfx (.ofStr "__curie")
    curieConv (fun v => .s ((shorten_uri (some v.toStr)).getD v.toStr)) (fun _ => rfl) hv
  refine ⟨uv, cv, ?_⟩
  unfold get_object_fields
  rw [h1, h2]
  simp only []
  rw [hoc]
  simp only []
  rw [hvt, if_pos rfl, hobj]
  simp only []
  rw [uriCurieFields_eq]

/-- Witness for C10 at a concrete vocabulary-classed property with one
value and an absent resolved object. -/
theorem C10_vocab_absent_amended_witness :
    ∃ uv cv, get_object_fields (fun _ _ => .ok [])
        (.object "rights" false ["http://example.com/v1"]
          (some ⟨"RightsStatement", true⟩) false [] none)
        ⟨fun _ => false, fun _ => ⟨none, "", fun _ => Resource.mk "" none []⟩⟩ "" =
      .ok ([(fieldName (.object "rights" false ["http://example.com/v1"]
               (some ⟨"RightsStatement", true⟩) false [] none) "" (.ofStr "__uri"), uv),
            (fieldName (.object "rights" false ["http://example.com/v1"]
               (some ⟨"RightsStatement", true⟩) false [] none) "" (.ofStr "__curie"), cv)],
        []) :=
  C10_vocab_absent_amended (fun _ _ => .ok [])
    (.object "rights" false ["http://example.com/v1"]
      (some ⟨"RightsStatement", true⟩) false [] none)
    ⟨fun _ => false, fun _ => ⟨none, "", fun _ => Resource.mk "" none []⟩⟩ ""
    ⟨"RightsStatement", true⟩ (Or.inr (by simp [RProperty.values])) rfl rfl rfl

/-- Strings extending the txt base never collide with the display
suffix. -/
theorem txt_ne_display (z : String) : "__txt" ++ z ≠ "__display" := by
  intro h
  have h2 := congrArg String.data h
  rw [String.data_append] at h2
  simp at h2

/-- The rendered txt suffix never collides with the display suffix. -/
theorem render_txt_ne_display (rep : Bool) (suf : String) :
    Suffix.render ⟨"__txt", rep, suf⟩ ≠ "__display" := by
  unfold Suffix.render
  rw [String.append_assoc]
  exact txt_ne_display _

/-- Distinct language suffixes give distinct rendered txt suffixes. -/
theorem render_txt_inj {rep : Bool} {s1 s2 : String} (h : s1 ≠ s2) :
    Suffix.render ⟨"__txt", rep, s1⟩ ≠ Suffix.render ⟨"__txt", rep, s2⟩ := by
  intro heq
  unfold Suffix.render at heq
  exact h (strAppendCancel heq)

/-- Field names with the same prefix and property differ when their
rendered suffixes differ. -/
theorem fieldName_ne_of_render (p : RProperty) (pfx : String) (s1 s2 : SuffixArg)
    (h : (resolveSuffix p s1).render ≠ (resolveSuffix p s2).render) :
    fieldName p pfx s1 ≠ fieldName p pfx s2 := by
  intro heq
  exact h (strAppendCancel heq)

/-- A field name whose rendered suffix is not the display suffix differs
from the display key. -/
theorem fieldName_ne_display (p : RProperty) (pfx : String) (s1 : SuffixArg)
    (h : (resolveSuffix p s1).render ≠ "__display") :
    fieldName p pfx s1 ≠ pfx ++ p.attr_name ++ "__display" := by
  intro heq
  exact h (strAppendCancel heq)

/-- C9: in the free-text branch, the display field value is always a
list of strings with one rendered entry per property value, in the
original order, regardless of the repeatable flag. -/
theorem C9_display_always_list (p : RProperty) (pfx : String)
    (hdt : fieldArgsByDatatype p.datatype = none)
    (han : fieldArgsByAttrName p.attr_name = none)
    (d : SolrFields) (h : get_data_fields p pfx = .ok d) :
    ∃ disp : List String,
      p.litValues.mapM (fun v => embed_language_tag v displayTemplate) = .ok disp ∧
      disp.length = p.litValues.length ∧
      List.Forall₂ (fun v s => embed_language_tag v displayTemplate = .ok s)
        p.litValues disp ∧
      lookupField d (pfx ++ p.attr_name ++ "__display") = some (.many (disp.map .s)) := by
  unfold get_data_fields at h
  rw [hdt, han] at h
  simp only [] at h
  cases hfold : (dedupFirst (p.litValues.map (fun l => l.language))).foldlM
      (txtStep p pfx) ([] : SolrFields) with
  | error e => rw [hfold] at h; cases h
  | ok fields =>
    rw [hfold] at h
    simp only [] at h
    cases hdisp : p.litValues.mapM (fun v => embed_language_tag v displayTemplate) with
    | error e => rw [hdisp] at h; cases h
    | ok disp =>
      rw [hdisp] at h
      simp only [] at h
      cases h
      refine ⟨disp, rfl, mapM_ok_length hdisp, mapM_ok_forall₂ hdisp, ?_⟩
      rw [dictUpdate_single]
      exact lookupField_updatePair_self _ _

/-- Witness for C9 at a concrete repeatable free-text property with two
language-tagged values. -/
theorem C9_display_always_list_witness :
    ∃ disp : List String,
      (RProperty.data "title" none true
          [⟨"Hello", some "en"⟩, ⟨"Hallo", some "de"⟩]).litValues.mapM
          (fun v => embed_language_tag v displayTemplate) = .ok disp ∧
      disp.length = (RProperty.data "title" none true
          [⟨"Hello", some "en"⟩, ⟨"Hallo", some "de"⟩]).litValues.length ∧
      List.Forall₂ (fun v s => embed_language_tag v displayTemplate = .ok s)
        (RProperty.data "title" none true
          [⟨"Hello", some "en"⟩, ⟨"Hallo", some "de"⟩]).litValues disp ∧
      lookupField
          [("object__title__txts_en", .many [.s "Hello"]),
           ("object__title__txts_de", .many [.s "Hallo"]),
           ("object__title__display", .many [.s "[@en]Hello", .s "[@de]Hallo"])]
          ("object__" ++ (RProperty.data "title" none true
            [⟨"Hello", some "en"⟩, ⟨"Hallo", some "de"⟩]).attr_name ++ "__display") =
        some (.many (disp.map .s)) :=
  C9_display_always_list
    (RProperty.data "title" none true [⟨"Hello", some "en"⟩, ⟨"Hallo", some "de"⟩])
    "object__" rfl rfl
    [("object__title__txts_en", .many [.s "Hello"]),
     ("object__title__txts_de", .many [.s "Hallo"]),
     ("object__title__display", .many [.s "[@en]Hello", .s "[@de]Hallo"])] rfl

/-- Updates performed later in the language loop leave a key alone when
every later language's txt field name differs from it. -/
theorem txtFold_preserve (p : RProperty) (pfx : String) :
    ∀ (langs : List (Option String)) (acc fields : SolrFields),
      langs.foldlM (txtStep p pfx) acc = .ok fields →
      ∀ k v, lookupField acc k = some v →
      (∀ lang ∈ langs, ∀ suf, language_suffix lang = .ok suf →
        fieldName p pfx (.ofSuffix ⟨"__txt", p.repeatable, suf⟩) ≠ k) →
      lookupField fields k = some v := by
  intro langs
  induction langs with
  | nil =>
    intro acc fields hf k v hk _
    rw [List.foldlM_nil] at hf
    cases hf
    exact hk
  | cons lang rest ih =>
    intro acc fields hf k v hk hne
    rw [List.foldlM_cons] at hf
    cases ht : txtStep p pfx acc lang with
    | error e =>
      rw [ht] at hf
      simp [bind, Except.bind] at hf
    | ok acc1 =>
      rw [ht] at hf
      simp only [bind, Except.bind] at hf
      unfold txtStep at ht
      cases hls : language_suffix lang with
      | error e => rw [hls] at ht; cases ht
      | ok suf =>
        rw [hls] at ht
        simp only [] at ht
        cases hgf : get_field p pfx (.ofSuffix ⟨"__txt", p.repeatable, suf⟩) strConv
            (langFilter lang) with
        | error e => rw [hgf] at ht; cases ht
        | ok f =>
          rw [hgf] at ht
          simp only [] at ht
          cases ht
          obtain ⟨val, hfshape⟩ := get_field_ok_shape hgf
          subst hfshape
          have hk1 : lookupField (dictUpdate acc
              [(fieldName p pfx (.ofSuffix ⟨"__txt", p.repeatable, suf⟩), val)]) k = some v := by
            rw [dictUpdate_single]
            rw [lookupField_updatePair_other
              (Ne.symm (hne lang (List.mem_cons_self lang rest) suf hls))]
            exact hk
          exact ih _ _ hf k v hk1 (fun l hl s hs => hne l (List.mem_cons_of_mem lang hl) s hs)

/-- In the language loop, every language whose suffix is distinct from
all the other languages' suffixes ends up with its own txt field in the
accumulated document, holding exactly the get_field result for that
language. -/
theorem txtFold_lookup (p : RProperty) (pfx : String) :
    ∀ (langs : List (Option String)) (acc fields : SolrFields),
      langs.foldlM (txtStep p pfx) acc = .ok fields →
      langs.Pairwise (fun l1 l2 => language_suffix l1 ≠ language_suffix l2) →
      ∀ lang ∈ langs, ∀ suf, language_suffix lang = .ok suf →
        ∃ val,
          get_field p pfx (.ofSuffix ⟨"__txt", p.repeatable, suf⟩) strConv (langFilter lang)
            = .ok [(fieldName p pfx (.ofSuffix ⟨"__txt", p.repeatable, suf⟩), val)] ∧
          lookupField fields (fieldName p pfx (.ofSuffix ⟨"__txt", p.repeatable, suf⟩))
            = some val := by
  intro langs
  induction langs with
  | nil =>
    intro acc fields _ _ lang hmem
    cases hmem
  | cons lang0 rest ih =>
    intro acc fields hf hpw lang hmem suf hsuf
    rw [List.foldlM_cons] at hf
    cases ht : txtStep p pfx acc lang0 with
    | error e =>
      rw [ht] at hf
      simp [bind, Except.bind] at hf
    | ok acc1 =>
      rw [ht] at hf
      simp only [bind, Except.bind] at hf
      obtain ⟨hpw0, hpwr⟩ := List.pairwise_cons.mp hpw
      unfold txtStep at ht
      cases hls : language_suffix lang0 with
      | error e => rw [hls] at ht; cases ht
      | ok suf0 =>
        rw [hls] at ht
        simp only [] at ht
        cases hgf : get_field p pfx (.ofSuffix ⟨"__txt", p.repeatable, suf0⟩) strConv
            (langFilter lang0) with
        | error e => rw [hgf] at ht; cases ht
        | ok f =>
          rw [hgf] at ht
          simp only [] at ht
          cases ht
          obtain ⟨val0, hfshape⟩ := get_field_ok_shape hgf
          subst hfshape
          rcases List.mem_cons.mp hmem with heq | hmem2
          · subst heq
            rw [hls] at hsuf
            cases hsuf
            refine ⟨val0, hgf, ?_⟩
            refine txtFold_preserve p pfx rest _ fields hf _ val0 ?_ ?_
            · rw [dictUpdate_single]
              exact lookupField_updatePair_self _ _
            · intro l hl s hs
              have hne0 : language_suffix lang ≠ language_suffix l := hpw0 l hl
              have hsne : suf ≠ s := by
                intro hss
                apply hne0
                rw [hls, hs, hss]
              exact fieldName_ne_of_render p pfx (.ofSuffix ⟨"__txt", p.repeatable, s⟩)
                (.ofSuffix ⟨"__txt", p.repeatable, suf⟩) (render_txt_inj (Ne.symm hsne))
          · exact ih _ _ hf hpwr lang hmem2 suf hsuf

/-- Suffixes available from the datatype override table. -/
theorem dt_args_suffix {dt : Option String} {args : FieldArgs}
    (h : fieldArgsByDatatype dt = some args) :
    args.suffix = "__int" ∨ args.suffix = "__dt" ∨ args.suffix = "__id" := by
  cases dt with
  | none => cases h
  | some d =>
    simp only [fieldArgsByDatatype] at h
    split_ifs at h <;> (cases h; simp)

/-- Suffixes available from the attribute-name override table. -/
theorem an_args_suffix {a : String} {args : FieldArgs}
    (h : fieldArgsByAttrName a = some args) :
    args.suffix = "__str" ∨ args.suffix = "__edtf" ∨ args.suffix = "__id" := by
  simp only [fieldArgsByAttrName] at h
  split_ifs at h <;> (cases h; simp)

/-- No override suffix renders to the display suffix. -/
theorem override_render_ne_display {base : String}
    (hb : base = "__int" ∨ base = "__dt" ∨ base = "__id" ∨
          base = "__str" ∨ base = "__edtf") (rep : Bool) :
    Suffix.render ⟨base, rep, ""⟩ ≠ "__display" := by
  rcases hb with h | h | h | h | h <;> subst h <;> cases rep <;> decide

/-- Lookup in a singleton under a different key is empty. -/
theorem lookupField_singleton_other {k n : String} {v : FValue} (h : n ≠ k) :
    lookupField [(n, v)] k = none := by
  simp only [lookupField]
  rw [if_neg h]

/-- C2: get_data_fields applies the datatype override first, otherwise
the attribute-name override, otherwise the free-text branch; the display
field is emitted only in the free-text branch (never when an override
matched), and in the free-text branch each distinct language receives
its own language-suffixed txt field holding exactly that language's
values (via get_field with the per-language filter), provided distinct
languages normalize to distinct suffixes; the display field renders
every value with its embedded language tag. -/
theorem C2_override_precedence (p : RProperty) (pfx : String) :
    (∀ args, fieldArgsByDatatype p.datatype = some args →
      get_data_fields p pfx = get_field p pfx (.ofStr args.suffix) args.converter trueFilter ∧
      (∀ d, get_data_fields p pfx = .ok d →
        lookupField d (pfx ++ p.attr_name ++ "__display") = none)) ∧
    (fieldArgsByDatatype p.datatype = none →
      ∀ args, fieldArgsByAttrName p.attr_name = some args →
      get_data_fields p pfx = get_field p pfx (.ofStr args.suffix) args.converter trueFilter ∧
      (∀ d, get_data_fields p pfx = .ok d →
        lookupField d (pfx ++ p.attr_name ++ "__display") = none)) ∧
    (fieldArgsByDatatype p.datatype = none →
      fieldArgsByAttrName p.attr_name = none →
      ∀ d, get_data_fields p pfx = .ok d →
        (∃ disp, p.litValues.mapM (fun v => embed_language_tag v displayTemplate) = .ok disp ∧
          lookupField d (pfx ++ p.attr_name ++ "__display") = some (.many (disp.map .s))) ∧
        ((dedupFirst (p.litValues.map (fun l => l.language))).Pairwise
            (fun l1 l2 => language_suffix l1 ≠ language_suffix l2) →
          ∀ lang ∈ dedupFirst (p.litValues.map (fun l => l.language)),
          ∀ suf, language_suffix lang = .ok suf →
            ∃ val,
              get_field p pfx (.ofSuffix ⟨"__txt", p.repeatable, suf⟩) strConv
                  (langFilter lang)
                = .ok [(fieldName p pfx (.ofSuffix ⟨"__txt", p.repeatable, suf⟩), val)] ∧
              lookupField d (fieldName p pfx (.ofSuffix ⟨"__txt", p.repeatable, suf⟩))
                = some val)) := by
  refine ⟨?_, ?_, ?_⟩
  · intro args hargs
    have heq : get_data_fields p pfx =
        get_field p pfx (.ofStr args.suffix) args.converter trueFilter := by
      unfold get_data_fields
      rw [hargs]
    refine ⟨heq, ?_⟩
    intro d hd
    rw [heq] at hd
    obtain ⟨val, hshape⟩ := get_field_ok_shape hd
    subst hshape
    exact lookupField_singleton_other
      (fieldName_ne_display p pfx (.ofStr args.suffix) (override_render_ne_display
        (by rcases dt_args_suffix hargs with h | h | h <;> simp [h]) p.repeatable))
  · intro hdt args hargs
    have heq : get_data_fields p pfx =
        get_field p pfx (.ofStr args.suffix) args.converter trueFilter := by
      unfold get_data_fields
      rw [hdt]
      simp only []
      rw [hargs]
    refine ⟨heq, ?_⟩
    intro d hd
    rw [heq] at hd
    obtain ⟨val, hshape⟩ := get_field_ok_shape hd
    subst hshape
    exact lookupField_singleton_other
      (fieldName_ne_display p pfx (.ofStr args.suffix) (override_render_ne_display
        (by rcases an_args_suffix hargs with h | h | h <;> simp [h]) p.repeatable))
  · intro hdt han d hd
    unfold get_data_fields at hd
    rw [hdt] at hd
    simp only [] at hd
    rw [han] at hd
    simp only [] at hd
    cases hfold : (dedupFirst (p.litValues.map (fun l => l.language))).foldlM
        (txtStep p pfx) ([] : SolrFields) with
    | error e => rw [hfold] at hd; cases hd
    | ok fields =>
      rw [hfold] at hd
      simp only [] at hd
      cases hdisp : p.litValues.mapM (fun v => embed_language_tag v displayTemplate) with
      | error e => rw [hdisp] at hd; cases hd
      | ok disp =>
        rw [hdisp] at hd
        simp only [] at hd
        cases hd
        constructor
        · refine ⟨disp, rfl, ?_⟩
          rw [dictUpdate_single]
          exact lookupField_updatePair_self _ _
        · intro hpw lang hmem suf hsuf
          obtain ⟨val, hgf, hlook⟩ := txtFold_lookup p pfx _ _ _ hfold hpw lang hmem suf hsuf
          refine ⟨val, hgf, ?_⟩
          rw [dictUpdate_single]
          rw [lookupField_updatePair_other
            (fieldName_ne_display p pfx (.ofSuffix ⟨"__txt", p.repeatable, suf⟩)
              (render_txt_ne_display p.repeatable suf))]
          exact hlook

/-- Counterexample for C2: with values tagged en and eng (distinct
languages that normalize to the same suffix), the second language's txt
field overwrites the first one's, so the output holds no txt field
containing only the en values: the only txt field is title__txts_en
holding the eng value Hi, not the en value Hello. -/
theorem C2_counterexample :
    get_data_fields (.data "title" none true
        [⟨"Hello", some "en"⟩, ⟨"Hi", some "eng"⟩]) "" =
      .ok [("title__txts_en", .many [.s "Hi"]),
           ("title__display", .many [.s "[@en]Hello", .s "[@en]Hi"])] ∧
    language_suffix (some "en") = language_suffix (some "eng") ∧
    [Scalar.s "Hi"] ≠ [Scalar.s "Hello"] :=
  ⟨rfl, rfl, by decide⟩

/-- Witness for C2 at concrete inputs: the datatype branch on an integer
property and the free-text branch on a two-language property. -/
theorem C2_override_precedence_witness :
    get_data_fields (.data "count" (some "http://www.w3.org/2001/XMLSchema#int") false
        [⟨"5", none⟩]) "" =
      get_field (.data "count" (some "http://www.w3.org/2001/XMLSchema#int") false
        [⟨"5", none⟩]) "" (.ofStr "__int") intConv trueFilter ∧
    (∃ disp, (RProperty.data "title" none true
        [⟨"Hello", some "en"⟩, ⟨"Hallo", some "de"⟩]).litValues.mapM
          (fun v => embed_language_tag v displayTemplate) = .ok disp ∧
      lookupField
          [("object__title__txts_en", .many [.s "Hello"]),
           ("object__title__txts_de", .many [.s "Hallo"]),
           ("object__title__display", .many [.s "[@en]Hello", .s "[@de]Hallo"])]
          ("object__" ++ (RProperty.data "title" none true
            [⟨"Hello", some "en"⟩, ⟨"Hallo", some "de"⟩]).attr_name ++ "__display") =
        some (.many (disp.map .s))) :=
  by
  constructor
  · exact ((C2_override_precedence (.data "count"
      (some "http://www.w3.org/2001/XMLSchema#int") false [⟨"5", none⟩]) "").1
      (FieldArgs.mk "__int" intConv) rfl).1
  · exact ((C2_override_precedence (.data "title" none true
        [⟨"Hello", some "en"⟩, ⟨"Hallo", some "de"⟩]) "object__").2.2 rfl rfl
      [("object__title__txts_en", .many [.s "Hello"]),
       ("object__title__txts_de", .many [.s "Hallo"]),
       ("object__title__display", .many [.s "[@en]Hello", .s "[@de]Hallo"])] rfl).1

/-- Keys produced by the language loop are prefix-shaped (or inherited
from the accumulator). -/
theorem txtFold_keys (p : RProperty) (pfx : String) :
    ∀ (langs : List (Option String)) (acc fields : SolrFields),
      langs.foldlM (txtStep p pfx) acc = .ok fields →
      ∀ k ∈ keysOf fields, k ∈ keysOf acc ∨ ∃ r, k = pfx ++ r := by
  intro langs
  induction langs with
  | nil =>
    intro acc fields hf k hk
    rw [List.foldlM_nil] at hf
    cases hf
    exact Or.inl hk
  | cons lang rest ih =>
    intro acc fields hf k hk
    rw [List.foldlM_cons] at hf
    cases ht : txtStep p pfx acc lang with
    | error e =>
      rw [ht] at hf
      simp [bind, Except.bind] at hf
    | ok acc1 =>
      rw [ht] at hf
      simp only [bind, Except.bind] at hf
      unfold txtStep at ht
      cases hls : language_suffix lang with
      | error e => rw [hls] at ht; cases ht
      | ok suf =>
        rw [hls] at ht
        simp only [] at ht
        cases hgf : get_field p pfx (.ofSuffix ⟨"__txt", p.repeatable, suf⟩) strConv
            (langFilter lang) with
        | error e => rw [hgf] at ht; cases ht
        | ok f =>
          rw [hgf] at ht
          simp only [] at ht
          cases ht
          obtain ⟨val, hshape⟩ := get_field_ok_shape hgf
          subst hshape
          rcases ih _ _ hf k hk with h2 | h2
          · rw [dictUpdate_single] at h2
            rw [keysOf_updatePair] at h2
            split at h2
            · exact Or.inl h2
            · rcases List.mem_append.mp h2 with h3 | h3
              · exact Or.inl h3
              · right
                refine ⟨p.attr_name ++ (resolveSuffix p
                  (.ofSuffix ⟨"__txt", p.repeatable, suf⟩)).render, ?_⟩
                rw [List.mem_singleton.mp h3]
                exact (String.append_assoc _ _ _)
          · exact Or.inr h2

/-- Keys produced by get_data_fields all extend the prefix. -/
theorem keys_get_data_fields {p : RProperty} {pfx : String} {d : SolrFields}
    (h : get_data_fields p pfx = .ok d) :
    ∀ k ∈ keysOf d, ∃ r, k = pfx ++ r := by
  unfold get_data_fields at h
  cases hdt : fieldArgsByDatatype p.datatype with
  | some args =>
    rw [hdt] at h
    simp only [] at h
    obtain ⟨val, hshape⟩ := get_field_ok_shape h
    subst hshape
    intro k hk
    rw [keysOf_cons] at hk
    rcases List.mem_cons.mp hk with h2 | h2
    · exact ⟨p.attr_name ++ (resolveSuffix p (.ofStr args.suffix)).render,
        by rw [h2]; exact String.append_assoc _ _ _⟩
    · cases h2
  | none =>
    rw [hdt] at h
    simp only [] at h
    cases han : fieldArgsByAttrName p.attr_name with
    | some args =>
      rw [han] at h
      simp only [] at h
      obtain ⟨val, hshape⟩ := get_field_ok_shape h
      subst hshape
      intro k hk
      rw [keysOf_cons] at hk
      rcases List.mem_cons.mp hk with h2 | h2
      · exact ⟨p.attr_name ++ (resolveSuffix p (.ofStr args.suffix)).render,
          by rw [h2]; exact String.append_assoc _ _ _⟩
      · cases h2
    | none =>
      rw [han] at h
      simp only [] at h
      cases hfold : (dedupFirst (p.litValues.map (fun l => l.language))).foldlM
          (txtStep p pfx) ([] : SolrFields) with
      | error e => rw [hfold] at h; cases h
      | ok fields =>
        rw [hfold] at h
        simp only [] at h
        cases hdisp : p.litValues.mapM (fun v => embed_language_tag v displayTemplate) with
        | error e => rw [hdisp] at h; cases h
        | ok disp =>
          rw [hdisp] at h
          simp only [] at h
          cases h
          intro k hk
          rw [dictUpdate_single, keysOf_updatePair] at hk
          have hfoldkeys := txtFold_keys p pfx _ _ _ hfold
          split at hk
          · rcases hfoldkeys k hk with h2 | h2
            · cases h2
            · exact h2
          · rcases List.mem_append.mp hk with h2 | h2
            · rcases hfoldkeys k h2 with h3 | h3
              · cases h3
              · exact h3
            · exact ⟨p.attr_name ++ "__display",
                by rw [List.mem_singleton.mp h2]; exact String.append_assoc _ _ _⟩

/-- Keys produced by get_object_fields have the collected shape
whenever the collector's outputs do. -/
theorem keys_get_object_fields
    {gmf : Resource → String → Except IndexErr SolrFields} {p : RProperty}
    {repo : Repository} {pfx : String} {fields : SolrFields} {reads : List String}
    (hgmf : ∀ o pfx2 d2, gmf o pfx2 = .ok d2 → ∀ k ∈ keysOf d2, KeyShape pfx2 k)
    (h : get_object_fields gmf p repo pfx = .ok (fields, reads)) :
    ∀ k ∈ keysOf fields, KeyShape pfx k := by
  unfold get_object_fields at h
  cases h1 : get_field p pfx (.ofStr "__uri") strConv trueFilter with
  | error e => rw [h1] at h; cases h
  | ok f1 =>
    rw [h1] at h
    cases h2 : get_field p pfx (.ofStr "__curie") curieConv trueFilter with
    | error e => rw [h2] at h; cases h
    | ok f2 =>
      rw [h2] at h
      obtain ⟨uv, hf1⟩ := get_field_ok_shape h1
      obtain ⟨cv, hf2⟩ := get_field_ok_shape h2
      subst hf1
      subst hf2
      simp only [] at h
      rw [uriCurieFields_eq] at h
      have hbase : ∀ k ∈ keysOf [(fieldName p pfx (.ofStr "__uri"), uv),
          (fieldName p pfx (.ofStr "__curie"), cv)], KeyShape pfx k := by
        intro k hk
        simp only [keysOf, List.map_cons, List.map_nil] at hk
        rcases List.mem_cons.mp hk with h3 | h3
        · exact Or.inr (Or.inr ⟨p.attr_name ++ (resolveSuffix p (.ofStr "__uri")).render,
            by rw [h3]; exact String.append_assoc _ _ _⟩)
        · rcases List.mem_cons.mp h3 with h4 | h4
          · exact Or.inr (Or.inr ⟨p.attr_name ++ (resolveSuffix p (.ofStr "__curie")).render,
              by rw [h4]; exact String.append_assoc _ _ _⟩)
          · cases h4
      cases hoc : p.object_class with
      | none =>
        rw [hoc] at h
        simp only [] at h
        cases h
        exact hbase
      | some cls =>
        rw [hoc] at h
        simp only [] at h
        cases hvt : cls.isVocabularyTerm with
        | true =>
          rw [hvt, if_pos rfl] at h
          cases hobj : p.objectOne with
          | some o =>
            rw [hobj] at h
            simp only [] at h
            cases hsub : gmf o (pfx ++ p.attr_name ++ "__") with
            | error e => rw [hsub] at h; cases h
            | ok sub =>
              rw [hsub] at h
              simp only [] at h
              cases h
              intro k hk
              rcases mem_keysOf_dictUpdate hk with h3 | h3
              · exact hbase k h3
              · rcases hgmf o _ sub hsub k h3 with h4 | h4 | ⟨r, h4⟩
                · exact Or.inl h4
                · exact Or.inr (Or.inl h4)
                · refine Or.inr (Or.inr ⟨p.attr_name ++ ("__" ++ r), ?_⟩)
                  rw [h4]
                  simp [String.append_assoc]
          | none =>
            rw [hobj] at h
            simp only [] at h
            cases h
            exact hbase
        | false =>
          rw [hvt, if_neg (by simp)] at h
          cases hemb : p.embedded with
          | true =>
            rw [hemb, if_pos rfl] at h
            cases hcd : get_child_documents gmf (strLower cls.name ++ "__")
                (p.objects.map LinkedItem.res) with
            | error e => rw [hcd] at h; cases h
            | ok ds =>
              rw [hcd] at h
              simp only [] at h
              cases h
              intro k hk
              rw [show updatePair [(fieldName p pfx (.ofStr "__uri"), uv),
                  (fieldName p pfx (.ofStr "__curie"), cv)]
                  (pfx ++ p.attr_name, FValue.docs ds) =
                dictUpdate [(fieldName p pfx (.ofStr "__uri"), uv),
                  (fieldName p pfx (.ofStr "__curie"), cv)]
                  [(pfx ++ p.attr_name, FValue.docs ds)] from rfl] at hk
              rcases mem_keysOf_dictUpdate hk with h3 | h3
              · exact hbase k h3
              · rcases List.mem_cons.mp h3 with h4 | h4
                · exact Or.inr (Or.inr ⟨p.attr_name, h4⟩)
                · cases h4
          | false =>
            rw [hemb, if_neg (by simp)] at h
            cases hcd : get_child_documents gmf (strLower cls.name ++ "__")
                (get_linked_objects cls p.uriValues repo).1 with
            | error e => rw [hcd] at h; cases h
            | ok ds =>
              rw [hcd] at h
              simp only [] at h
              cases h
              intro k hk
              rw [show updatePair [(fieldName p pfx (.ofStr "__uri"), uv),
                  (fieldName p pfx (.ofStr "__curie"), cv)]
                  (pfx ++ p.attr_name, FValue.docs ds) =
                dictUpdate [(fieldName p pfx (.ofStr "__uri"), uv),
                  (fieldName p pfx (.ofStr "__curie"), cv)]
                  [(pfx ++ p.attr_name, FValue.docs ds)] from rfl] at hk
              rcases mem_keysOf_dictUpdate hk with h3 | h3
              · exact hbase k h3
              · rcases List.mem_cons.mp h3 with h4 | h4
                · exact Or.inr (Or.inr ⟨p.attr_name, h4⟩)
                · cases h4

/-- Keys accumulated by the property loop have the collected shape. -/
theorem keys_processProps
    {gmf : Resource → String → Except IndexErr SolrFields} {mn : Option String}
    {repo : Repository} {pfx : String}
    (hgmf : ∀ o pfx2 d2, gmf o pfx2 = .ok d2 → ∀ k ∈ keysOf d2, KeyShape pfx2 k) :
    ∀ (props : List RProperty) (acc d : SolrFields),
      processProps gmf mn repo pfx props acc = .ok d →
      (∀ k ∈ keysOf acc, KeyShape pfx k) →
      ∀ k ∈ keysOf d, KeyShape pfx k := by
  intro props
  induction props with
  | nil =>
    intro acc d h hacc
    cases h
    exact hacc
  | cons p rest ih =>
    intro acc d h hacc
    simp only [processProps] at h
    by_cases hn : p.numValues = 0
    · rw [if_pos hn] at h
      exact ih acc d h hacc
    · rw [if_neg hn] at h
      by_cases hs : (skipFieldsByModel mn).contains p.attr_name = true
      · rw [if_pos hs] at h
        exact ih acc d h hacc
      · rw [if_neg hs] at h
        cases p with
        | data a dt rep vs =>
          simp only [] at h
          cases hdf : get_data_fields (.data a dt rep vs) pfx with
          | error e => rw [hdf] at h; cases h
          | ok f =>
            rw [hdf] at h
            simp only [] at h
            refine ih _ d h ?_
            intro k hk
            rcases mem_keysOf_dictUpdate hk with h2 | h2
            · exact hacc k h2
            · obtain ⟨r, hr⟩ := keys_get_data_fields hdf k h2
              exact Or.inr (Or.inr ⟨r, hr⟩)
        | object a rep vs oc emb objs obj1 =>
          simp only [] at h
          cases hof : get_object_fields gmf (.object a rep vs oc emb objs obj1) repo pfx with
          | error e => rw [hof] at h; cases h
          | ok fo =>
            rw [hof] at h
            simp only [] at h
            refine ih _ d h ?_
            intro k hk
            rcases mem_keysOf_dictUpdate hk with h2 | h2
            · exact hacc k h2
            · exact keys_get_object_fields hgmf
                (show get_object_fields gmf (.object a rep vs oc emb objs obj1) repo pfx
                  = .ok (fo.1, fo.2) by rw [hof]) k h2

/-- Keys of a collected document: the two resource-level fields or keys
extending the prefix, at every fuel. -/
theorem keysOf_get_model_fields :
    ∀ (fuel : Nat) (obj : Resource) (repo : Repository) (pfx : String) (d : SolrFields),
      get_model_fields fuel obj repo pfx = .ok d →
      ∀ k ∈ keysOf d, KeyShape pfx k := by
  intro fuel
  induction fuel with
  | zero =>
    intro obj repo pfx d h
    cases h
  | succ fuel ih =>
    intro obj repo pfx d h
    simp only [get_model_fields] at h
    refine keys_processProps (fun o pfx2 d2 h2 => ih o repo pfx2 d2 h2) _ _ d h ?_
    intro k hk
    split at hk
    · rcases mem_keysOf_dictUpdate hk with h2 | h2
      · cases hmn : obj.model_name with
        | some m =>
          rw [hmn] at h2
          rcases List.mem_cons.mp h2 with h3 | h3
          · exact Or.inl h3
          · cases h3
        | none =>
          rw [hmn] at h2
          cases h2
      · rcases List.mem_cons.mp h2 with h3 | h3
        · exact Or.inr (Or.inl h3)
        · cases h3
    · cases hmn : obj.model_name with
      | some m =>
        rw [hmn] at hk
        rcases List.mem_cons.mp hk with h3 | h3
        · exact Or.inl h3
        · cases h3
      | none =>
        rw [hmn] at hk
        cases hk

/-- Merging pairs with keys different from the head key leaves the head
pair in place. -/
theorem dictUpdate_head_preserved (x : String × FValue) (d new : SolrFields)
    (hnew : ∀ kv ∈ new, kv.1 ≠ x.1) :
    ∃ d2, dictUpdate (x :: d) new = x :: d2 := by
  induction new generalizing x d with
  | nil => exact ⟨d, rfl⟩
  | cons kv rest ih =>
    have step : dictUpdate (x :: d) (kv :: rest) =
        dictUpdate (updatePair (x :: d) kv) rest := rfl
    rw [step]
    obtain ⟨d3, hd3⟩ : ∃ d3, updatePair (x :: d) kv = x :: d3 := by
      unfold updatePair
      by_cases hc : containsKey (x :: d) kv.1
      · rw [if_pos hc]
        refine ⟨d.map (fun p => if p.1 = kv.1 then (p.1, kv.2) else p), ?_⟩
        rw [List.map_cons]
        congr 1
        exact if_neg (Ne.symm (hnew kv (List.mem_cons_self kv rest)))
      · rw [if_neg hc]
        exact ⟨d ++ [kv], rfl⟩
    rw [hd3]
    exact ih x d3 (fun kv2 hkv2 => hnew kv2 (List.mem_cons_of_mem kv hkv2))

/-- A nonempty prefix ending in a double underscore is never a prefix of
the id key. -/
theorem clsPfx_not_prefix_id (y : String) : strStarts (y ++ "__") "id" = false := by
  cases hb : strStarts (y ++ "__") "id"
  · rfl
  · exfalso
    have hp : (y ++ "__").data <+: "id".data := by
      simpa [strStarts, List.isPrefixOf_iff_prefix] using hb
    rw [String.data_append] at hp
    have h2 : ("__" : String).data = ['_', '_'] := rfl
    have h3 : ("id" : String).data = ['i', 'd'] := rfl
    rw [h2, h3] at hp
    have hlen := hp.length_le
    rw [List.length_append] at hlen
    have h5 : (['_', '_'] : List Char).length = 2 := rfl
    have h6 : (['i', 'd'] : List Char).length = 2 := rfl
    have hy : y.data = [] := List.length_eq_zero.mp (by omega)
    rw [hy] at hp
    simp only [List.nil_append] at hp
    obtain ⟨t, ht⟩ := hp
    rw [List.cons_append] at ht
    injection ht with h4 h5
    exact absurd h4 (by decide)

/-- C6 amended: every child document built by get_child_documents (with
the real collector at the lowercase class-name prefix) starts with the
id pair holding the item's URI string, its id lookup returns that URI,
and every other field name is either one of the two unprefixed
resource-level fields (content_model_name__str, described_by__uri) or
extends the lowercase class-name prefix. -/
theorem C6_child_documents_amended (fuel : Nat) (repo : Repository) (cls : ObjectClass)
    (items : List LinkedItem) (docs : List SolrFields)
    (h : get_child_documents (fun o pfx2 => get_model_fields fuel o repo pfx2)
      (strLower cls.name ++ "__") items = .ok docs) :
    List.Forall₂ (fun it doc =>
      doc.head? = some ("id", FValue.one (.s it.uriStr)) ∧
      lookupField doc "id" = some (FValue.one (.s it.uriStr)) ∧
      ∀ kv ∈ doc, kv.1 = "id" ∨ kv.1 = "content_model_name__str" ∨
        kv.1 = "described_by__uri" ∨
        strStarts (strLower cls.name ++ "__") kv.1 = true)
      items docs := by
  unfold get_child_documents at h
  have hfa := mapM_ok_forall₂ h
  refine hfa.imp ?_
  intro it doc hit
  cases it with
  | raw u =>
    simp only [] at hit
    cases hit
    refine ⟨rfl, rfl, ?_⟩
    intro kv hkv
    rcases List.mem_cons.mp hkv with h2 | h2
    · left
      rw [h2]
    · cases h2
  | res o =>
    simp only [] at hit
    cases hgm : get_model_fields fuel o repo (strLower cls.name ++ "__") with
    | error e => rw [hgm] at hit; cases hit
    | ok f =>
      rw [hgm] at hit
      simp only [] at hit
      cases hit
      have hkeys := keysOf_get_model_fields fuel o repo _ f hgm
      have hnotid : ∀ kv ∈ f, kv.1 ≠ "id" := by
        intro kv hkv
        have hk := hkeys kv.1 (List.mem_map_of_mem Prod.fst hkv)
        rcases hk with h2 | h2 | ⟨r, h2⟩
        · rw [h2]
          decide
        · rw [h2]
          decide
        · intro hid
          have hss : strStarts (strLower cls.name ++ "__") "id" = true := by
            rw [← hid, h2]
            exact strStarts_append _ _
          rw [clsPfx_not_prefix_id (strLower cls.name)] at hss
          cases hss
      obtain ⟨d2, hd2⟩ := dictUpdate_head_preserved
        ("id", FValue.one (.s (LinkedItem.res o).uriStr)) [] f hnotid
      rw [show (LinkedItem.res o).uriStr = o.uri from rfl] at hd2
      rw [hd2]
      refine ⟨rfl, rfl, ?_⟩
      intro kv hkv
      rcases List.mem_cons.mp hkv with h2 | h2
      · left
        rw [h2]
      · have hm : kv.1 ∈ keysOf (dictUpdate [("id", FValue.one (.s o.uri))] f) := by
          rw [hd2, keysOf_cons]
          exact List.mem_cons_of_mem _ (List.mem_map_of_mem Prod.fst h2)
        rcases mem_keysOf_dictUpdate hm with h3 | h3
        · left
          simpa [keysOf] using h3
        · rcases hkeys kv.1 h3 with h4 | h4 | ⟨r, h4⟩
          · right; left; exact h4
          · right; right; left; exact h4
          · right; right; right
            rw [h4]
            exact strStarts_append _ _

/-- Pointwise characterization of get_linked_objects: each in-endpoint
URI is read and described as the object class, each outside URI is
passed through raw unless the class is a vocabulary-term kind (then
dropped), in order; the reads trace is exactly the in-endpoint URIs in
order. -/
theorem get_linked_objects_spec (cls : ObjectClass) (values : List String)
    (repo : Repository) :
    get_linked_objects cls values repo =
      (values.filterMap (fun u =>
        if repo.inEndpoint u then some (.res ((repo.read u).describeAs cls))
        else if cls.isVocabularyTerm then none
        else some (.raw u)),
       values.filter repo.inEndpoint) := by
  induction values with
  | nil => rfl
  | cons u rest ih =>
    by_cases h1 : repo.inEndpoint u <;> by_cases h2 : cls.isVocabularyTerm <;>
      simp [get_linked_objects, List.filterMap_cons, List.filter_cons, h1, h2, ih]

/-- C3: resolution of linked object properties. For any object class,
get_linked_objects iterates the URI values in order: an in-endpoint URI
is read from the repository and described as the class, an outside URI
is passed through raw as a child-document source item unless the class
is a vocabulary-term kind (then dropped); the repository reads are
exactly the in-endpoint URIs, in order. For a property with a declared
non-vocabulary class, the embedded branch performs no repository read to
resolve the property's values (its reads trace is empty; child documents
come from the already-resolved objects), while the non-embedded branch
reads exactly the in-endpoint values and builds its child documents from
the get_linked_objects items. -/
theorem C3_linked_resolution (cls : ObjectClass) (repo : Repository)
    (gmf : Resource → String → Except IndexErr SolrFields) (p : RProperty)
    (pfx : String) :
    (∀ values : List String,
      get_linked_objects cls values repo =
        (values.filterMap (fun u =>
          if repo.inEndpoint u then some (.res ((repo.read u).describeAs cls))
          else if cls.isVocabularyTerm then none
          else some (.raw u)),
         values.filter repo.inEndpoint)) ∧
    (p.object_class = some cls → cls.isVocabularyTerm = false →
      ∀ fields reads, get_object_fields gmf p repo pfx = .ok (fields, reads) →
        (p.embedded = true →
          reads = [] ∧
          ∃ ds, get_child_documents gmf (strLower cls.name ++ "__")
              (p.objects.map LinkedItem.res) = .ok ds ∧
            lookupField fields (pfx ++ p.attr_name) = some (.docs ds)) ∧
        (p.embedded = false →
          reads = p.uriValues.filter repo.inEndpoint ∧
          ∃ ds, get_child_documents gmf (strLower cls.name ++ "__")
              (get_linked_objects cls p.uriValues repo).1 = .ok ds ∧
            lookupField fields (pfx ++ p.attr_name) = some (.docs ds))) := by
  refine ⟨fun values => get_linked_objects_spec cls values repo, ?_⟩
  intro hoc hvt fields reads h
  unfold get_object_fields at h
  cases h1 : get_field p pfx (.ofStr "__uri") strConv trueFilter with
  | error e => rw [h1] at h; cases h
  | ok f1 =>
    rw [h1] at h
    cases h2 : get_field p pfx (.ofStr "__curie") curieConv trueFilter with
    | error e => rw [h2] at h; cases h
    | ok f2 =>
      rw [h2] at h
      simp only [] at h
      rw [hoc] at h
      simp only [] at h
      rw [hvt] at h
      rw [if_neg (by simp)] at h
      cases hemb : p.embedded with
      | true =>
        rw [hemb, if_pos rfl] at h
        cases hcd : get_child_documents gmf (strLower cls.name ++ "__")
            (p.objects.map LinkedItem.res) with
        | error e => rw [hcd] at h; cases h
        | ok ds =>
          rw [hcd] at h
          simp only [] at h
          cases h
          constructor
          · intro _
            exact ⟨rfl, ds, rfl, lookupField_updatePair_self _ _⟩
          · intro hfalse
            cases hfalse
      | false =>
        rw [hemb, if_neg (by simp)] at h
        cases hcd : get_child_documents gmf (strLower cls.name ++ "__")
            (get_linked_objects cls p.uriValues repo).1 with
        | error e => rw [hcd] at h; cases h
        | ok ds =>
          rw [hcd] at h
          simp only [] at h
          cases h
          constructor
          · intro htrue
            cases htrue
          · intro _
            refine ⟨?_, ds, rfl, lookupField_updatePair_self _ _⟩
            exact congrArg Prod.snd (get_linked_objects_spec cls p.uriValues repo)

/-- Witness for C3 at a concrete linked (non-embedded) property with one
in-endpoint and one outside URI: exactly the in-endpoint URI is read,
and the child documents are built from the resolved item list (the
outside URI passed through raw). -/
theorem C3_linked_resolution_witness :
    (["http://repo/x"] : List String) =
      ["http://repo/x", "http://other/y"].filter (fun u => strStarts "http://repo/" u) ∧
    ∃ ds, get_child_documents (fun o pfx2 => get_model_fields 1 o
          ⟨fun u => strStarts "http://repo/" u,
           fun u => ⟨none, u, fun _ => Resource.mk u none []⟩⟩ pfx2)
        "page__"
        (get_linked_objects ⟨"Page", false⟩ ["http://repo/x", "http://other/y"]
          ⟨fun u => strStarts "http://repo/" u,
           fun u => ⟨none, u, fun _ => Resource.mk u none []⟩⟩).1 = .ok ds ∧
      lookupField [("pages__uris", .many [.s "http://repo/x", .s "http://other/y"]),
          ("pages__curies", .many [.s "http://repo/x", .s "http://other/y"]),
          ("pages", .docs [[("id", .one (.s "http://repo/x")),
            ("described_by__uri", .one (.s "http://repo/x"))],
            [("id", .one (.s "http://other/y"))]])]
        "pages" = some (.docs ds) := by
  exact ((C3_linked_resolution ⟨"Page", false⟩
      ⟨fun u => strStarts "http://repo/" u,
       fun u => ⟨none, u, fun _ => Resource.mk u none []⟩⟩
      (fun o pfx2 => get_model_fields 1 o
        ⟨fun u => strStarts "http://repo/" u,
         fun u => ⟨none, u, fun _ => Resource.mk u none []⟩⟩ pfx2)
      (.object "pages" true ["http://repo/x", "http://other/y"]
        (some ⟨"Page", false⟩) false [] none) "").2 rfl rfl
    [("pages__uris", .many [.s "http://repo/x", .s "http://other/y"]),
     ("pages__curies", .many [.s "http://repo/x", .s "http://other/y"]),
     ("pages", .docs [[("id", .one (.s "http://repo/x")),
       ("described_by__uri", .one (.s "http://repo/x"))],
       [("id", .one (.s "http://other/y"))]])]
    ["http://repo/x"] rfl).2 rfl

/-- Counterexample for C6: a child document built for an embedded
content-modeled object carries the unprefixed field names id and
content_model_name__str, so not all child-document field names extend
the lowercase class-name prefix. -/
theorem C6_counterexample :
    get_child_documents (fun o pfx2 => get_model_fields 1 o
        ⟨fun _ => false, fun _ => ⟨none, "", fun _ => Resource.mk "" none []⟩⟩ pfx2)
      (strLower "Page" ++ "__") [.res (Resource.mk "http://x/p#1" (some "Page") [])] =
      .ok [[("id", .one (.s "http://x/p#1")),
            ("content_model_name__str", .one (.s "Page"))]] ∧
    strStarts (strLower "Page" ++ "__") "id" = false ∧
    strStarts (strLower "Page" ++ "__") "content_model_name__str" = false :=
  ⟨rfl, rfl, rfl⟩

/-- Witness for C6 at the same concrete child document. -/
theorem C6_child_documents_amended_witness :
    List.Forall₂ (fun (it : LinkedItem) (doc : SolrFields) =>
      doc.head? = some ("id", FValue.one (.s it.uriStr)) ∧
      lookupField doc "id" = some (FValue.one (.s it.uriStr)) ∧
      ∀ kv ∈ doc, kv.1 = "id" ∨ kv.1 = "content_model_name__str" ∨
        kv.1 = "described_by__uri" ∨
        strStarts (strLower "Page" ++ "__") kv.1 = true)
      [.res (Resource.mk "http://x/p#1" (some "Page") [])]
      [[("id", .one (.s "http://x/p#1")),
        ("content_model_name__str", .one (.s "Page"))]] :=
  C6_child_documents_amended 1
    ⟨fun _ => false, fun _ => ⟨none, "", fun _ => Resource.mk "" none []⟩⟩
    ⟨"Page", false⟩ [.res (Resource.mk "http://x/p#1" (some "Page") [])]
    [[("id", .one (.s "http://x/p#1")), ("content_model_name__str", .one (.s "Page"))]]
    rfl


end Solrizer
